import Mathlib

/-!
Verification of the financial-research-agent core against its design notes.

Text is modelled as `List Char` (named `Str` below).  Python floats are
modelled as rationals (`ℚ`); machine float rounding is outside the model.
External collaborators (LLM, embedding service, vector store, reranker,
fetch tools) are passed in as explicit arguments, so every modelled
operation is a total, executable Lean function.
-/

namespace FinAgent

abbrev Str := List Char

/-- JSON whitespace characters accepted by the `json` module. -/
def jsonWs (c : Char) : Bool :=
  c = ' ' || c = '\t' || c = '\n' || c = '\r'

/-- Python `str.strip()` whitespace set (ASCII subset). -/
def pyWs (c : Char) : Bool :=
  c = ' ' || c = '\t' || c = '\n' || c = '\r' || c = '\x0b' || c = '\x0c'

/-- Lower-casing map covering ASCII and the accented letters used by the
source's keyword tables (Python `str.lower` on the relevant alphabet). -/
def pyLowerChar (c : Char) : Char :=
  if 'A' ≤ c ∧ c ≤ 'Z' then Char.ofNat (c.toNat + 32)
  else if c = 'Á' then 'á' else if c = 'Â' then 'â' else if c = 'Ã' then 'ã'
  else if c = 'À' then 'à' else if c = 'É' then 'é' else if c = 'Ê' then 'ê'
  else if c = 'Í' then 'í' else if c = 'Ó' then 'ó' else if c = 'Ô' then 'ô'
  else if c = 'Õ' then 'õ' else if c = 'Ú' then 'ú' else if c = 'Ç' then 'ç'
  else c

/-- Upper-casing map (inverse direction of `pyLowerChar`). -/
def pyUpperChar (c : Char) : Char :=
  if 'a' ≤ c ∧ c ≤ 'z' then Char.ofNat (c.toNat - 32)
  else if c = 'á' then 'Á' else if c = 'â' then 'Â' else if c = 'ã' then 'Ã'
  else if c = 'à' then 'À' else if c = 'é' then 'É' else if c = 'ê' then 'Ê'
  else if c = 'í' then 'Í' else if c = 'ó' then 'Ó' else if c = 'ô' then 'Ô'
  else if c = 'õ' then 'Õ' else if c = 'ú' then 'Ú' else if c = 'ç' then 'Ç'
  else c

def pyLower (s : Str) : Str := s.map pyLowerChar

def pyUpper (s : Str) : Str := s.map pyUpperChar

/-- Python `in` test for strings: `pat` occurs contiguously in `s`. -/
def strContains (s pat : Str) : Bool :=
  match s with
  | [] => decide (pat = [])
  | _ :: rest => decide (pat = s.take pat.length) || strContains rest pat

/-- Python `str.strip()`. -/
def pyStrip (s : Str) : Str :=
  ((s.dropWhile (pyWs ·)).reverse.dropWhile (pyWs ·)).reverse

/-- Left brace character (used to build JSON sample inputs). -/
def lb : Char := Char.ofNat 123

/-- Right brace character. -/
def rb : Char := Char.ofNat 125

/-! ### JSON values and `json.loads`

`json.loads` is modelled by a fuel-based recursive-descent parser over
`List Char`.  Numbers are parsed into `ℚ`; the non-finite literals
(`NaN`, `Infinity`) accepted by CPython are outside the model. -/

inductive Json where
  | null : Json
  | bool (b : Bool) : Json
  | num (q : ℚ) : Json
  | str (s : Str) : Json
  | arr (elems : List Json) : Json
  | obj (fields : List (Str × Json)) : Json

mutual

/-- Structural boolean equality on JSON values (models Python `==` on the
decoded objects; dict key order is not abstracted away). -/
def jsonBeq : Json → Json → Bool
  | .null, .null => true
  | .bool a, .bool b => a = b
  | .num a, .num b => a = b
  | .str a, .str b => a = b
  | .arr a, .arr b => jsonBeqL a b
  | .obj a, .obj b => jsonBeqF a b
  | _, _ => false

/-- Elementwise equality of JSON arrays. -/
def jsonBeqL : List Json → List Json → Bool
  | [], [] => true
  | a :: as, b :: bs => jsonBeq a b && jsonBeqL as bs
  | _, _ => false

/-- Elementwise equality of JSON object field lists. -/
def jsonBeqF : List (Str × Json) → List (Str × Json) → Bool
  | [], [] => true
  | (k, a) :: as, (l, b) :: bs => decide (k = l) && jsonBeq a b && jsonBeqF as bs
  | _, _ => false

end

/-- Consume JSON whitespace. -/
def skipWs (s : Str) : Str := s.dropWhile (jsonWs ·)

/-- Match an exact literal at the head of the input. -/
def matchLit : Str → Str → Option Str
  | [], s => some s
  | _ :: _, [] => none
  | l :: ls, c :: cs => if l = c then matchLit ls cs else none

/-- Parse a non-empty run of decimal digits; returns the value, the digit
count and the rest. -/
def parseDigits (s : Str) : Option (Nat × Nat × Str) :=
  let run := s.takeWhile (·.isDigit)
  if run = [] then none
  else some (run.foldl (fun acc c => acc * 10 + (c.toNat - 48)) 0, run.length, s.drop run.length)

/-- Parse a signed exponent part (after the `e`). -/
def parseExpo (t : Str) : Option ℤ × Str :=
  let (eneg, t2) := match t with
    | '-' :: r => (true, r)
    | '+' :: r => (false, r)
    | _ => (false, t)
  match parseDigits t2 with
  | some (ev, _, r) => (some (if eneg then -(ev : ℤ) else (ev : ℤ)), r)
  | none => (none, t2)

/-- Parse a JSON number into `ℚ` (sign, integer part, fraction, exponent). -/
def parseNumber (s : Str) : Option (ℚ × Str) := do
  let (neg, s) := match s with
    | '-' :: rest => (true, rest)
    | _ => (false, s)
  let (ip, _, s) ← parseDigits s
  let (fracNum, fracDen, s) := match s with
    | '.' :: rest =>
      match parseDigits rest with
      | some (fv, fc, rest2) => ((fv : ℚ), ((10 : ℚ) ^ fc), rest2)
      | none => (0, 0, '.' :: rest)
    | _ => ((0 : ℚ), (1 : ℚ), s)
  if fracDen = 0 then none
  else
    let (expo, s) := match s with
      | 'e' :: rest => parseExpo rest
      | 'E' :: rest => parseExpo rest
      | _ => (some (0 : ℤ), s)
    match expo with
    | none => none
    | some e =>
      let mag : ℚ := ((ip : ℚ) + fracNum / fracDen) * (10 : ℚ) ^ e
      some (if neg then -mag else mag, s)

/-- Rebuild the field list the way `dict` construction does: a repeated
key overwrites the value at the key's first position. -/
def dictUp (fields : List (Str × Json)) : List (Str × Json) :=
  fields.foldl (fun acc kv =>
    if acc.any (fun p => p.1 = kv.1) then
      acc.map (fun p => if p.1 = kv.1 then (p.1, kv.2) else p)
    else acc ++ [kv]) []

/-- Parse the body of a JSON string (the opening quote has been consumed);
handles the escape sequences the `json` module accepts. -/
def parseJStringBody (fuel : Nat) (s : Str) : Option (Str × Str) :=
  match fuel, s with
  | 0, _ => none
  | _, [] => none
  | fuel + 1, c :: rest =>
    if c = '"' then some ([], rest)
    else if c = '\\' then
      match rest with
      | [] => none
      | e :: rest2 =>
        let dec : Option Char :=
          if e = '"' then some '"' else if e = '\\' then some '\\'
          else if e = '/' then some '/' else if e = 'b' then some '\x08'
          else if e = 'f' then some '\x0c' else if e = 'n' then some '\n'
          else if e = 'r' then some '\r' else if e = 't' then some '\t'
          else none
        match dec with
        | some d => do
          let (tail, rest3) ← parseJStringBody fuel rest2
          some (d :: tail, rest3)
        | none =>
          if e = 'u' then
            let hex := rest2.take 4
            if hex.length = 4 ∧ hex.all (fun c =>
                c.isDigit || ('a' ≤ c ∧ c ≤ 'f') || ('A' ≤ c ∧ c ≤ 'F')) then do
              let v := hex.foldl (fun acc c => acc * 16 +
                (if c.isDigit then c.toNat - 48
                 else if 'a' ≤ c then c.toNat - 87 else c.toNat - 55)) 0
              let (tail, rest3) ← parseJStringBody fuel (rest2.drop 4)
              some (Char.ofNat v :: tail, rest3)
            else none
          else none
    else if c.toNat < 32 then none
    else do
      let (tail, rest2) ← parseJStringBody fuel rest
      some (c :: tail, rest2)

mutual

/-- Fuel-based recursive-descent parser for one JSON value. -/
def parseValue (fuel : Nat) (s : Str) : Option (Json × Str) :=
  match fuel with
  | 0 => none
  | fuel + 1 =>
    match s with
    | [] => none
    | c :: rest =>
      if c = '"' then do
        let (body, r) ← parseJStringBody (fuel + 1) rest
        some (.str body, r)
      else if c = lb then
        let r := skipWs rest
        match r with
        | d :: r2 =>
          if d = rb then some (.obj [], r2)
          else do
            let (fields, r3) ← parseFields fuel r
            some (.obj (dictUp fields), r3)
        | [] => none
      else if c = '[' then
        let r := skipWs rest
        match r with
        | ']' :: r2 => some (.arr [], r2)
        | _ => do
          let (elems, r3) ← parseElems fuel r
          some (.arr elems, r3)
      else
        match matchLit ("true").toList s with
        | some r => some (.bool true, r)
        | none =>
        match matchLit ("false").toList s with
        | some r => some (.bool false, r)
        | none =>
        match matchLit ("null").toList s with
        | some r => some (.null, r)
        | none => do
          let (q, r) ← parseNumber s
          some (.num q, r)

/-- Parse one or more comma-separated `"key": value` fields, then the
closing brace. -/
def parseFields (fuel : Nat) (s : Str) : Option (List (Str × Json) × Str) :=
  match fuel with
  | 0 => none
  | fuel + 1 =>
    match s with
    | '"' :: rest => do
      let (key, r) ← parseJStringBody (fuel + 1) rest
      let r := skipWs r
      match r with
      | ':' :: r2 => do
        let (v, r3) ← parseValue fuel (skipWs r2)
        let r4 := skipWs r3
        match r4 with
        | ',' :: r5 => do
          let (fields, r6) ← parseFields fuel (skipWs r5)
          some ((key, v) :: fields, r6)
        | d :: r5 =>
          if d = rb then some ([(key, v)], r5) else none
        | [] => none
      | _ => none
    | _ => none

/-- Parse one or more comma-separated array elements, then `]`. -/
def parseElems (fuel : Nat) (s : Str) : Option (List Json × Str) :=
  match fuel with
  | 0 => none
  | fuel + 1 => do
    let (v, r) ← parseValue fuel s
    let r2 := skipWs r
    match r2 with
    | ',' :: r3 => do
      let (elems, r4) ← parseElems fuel (skipWs r3)
      some (v :: elems, r4)
    | ']' :: r3 => some ([v], r3)
    | _ => none

end

/-- Model of `json.loads`: parse a complete JSON document, rejecting
trailing garbage.  Returns `none` where CPython raises `JSONDecodeError`. -/
def jsonLoads (s : Str) : Option Json := do
  let (v, r) ← parseValue (s.length + 1) (skipWs s)
  if skipWs r = [] then some v else none

/-- Python `dict.get` over a decoded JSON object (decoded objects bind
each key once — see `dictUp`). -/
def jgetD (fields : List (Str × Json)) (key : Str) (dflt : Json) : Json :=
  match fields.lookup key with
  | some v => v
  | none => dflt

/-- Membership test for a key in a decoded JSON object. -/
def jhas (fields : List (Str × Json)) (key : Str) : Bool :=
  (fields.lookup key).isSome

/-! ### Python exceptions

The exception classes that the router / tools distinguish. -/

inductive PyErr where
  | jsonDecode : PyErr
  | keyErr : PyErr
  | valueErr : PyErr
  | typeErr : PyErr
  | validationErr : PyErr
  | indexErr : PyErr
  | agentErr : PyErr
deriving DecidableEq

/-! ### `src/core/types.py` — intent data model -/

inductive QueryIntentType where
  | financial_analysis : QueryIntentType
  | market_data : QueryIntentType
  | news_sentiment : QueryIntentType
  | document_search : QueryIntentType
  | comparison : QueryIntentType
  | general : QueryIntentType
deriving DecidableEq

/-- `QueryIntent` (pydantic model): the classified routing signal. -/
structure QueryIntent where
  intent_type : QueryIntentType
  entities : List (Str × Json) := []
  tickers : List Str := []
  time_range : Option Str := none
  requires_rag : Bool := false
  requires_market_data : Bool := false
  requires_news : Bool := false
  confidence : ℚ := 1

/-! ### `src/agents/router.py` — RouterAgent

`RouterAgent.execute` classifies a raw query.  The LLM collaborator is an
explicit argument (`Except PyErr Str`): an `.error` value models the call
raising.  The model function is total, which is itself the never-fails
half of the classifier contract. -/

/-- Python `\w` test.  ASCII is exact; all non-ASCII code points are
treated as word characters (exact for the accented letters that matter
here, an over-approximation for non-ASCII punctuation). -/
def isWordChar (c : Char) : Bool :=
  c.isAlphanum || c = '_' || decide (c.toNat ≥ 128)

def isUpperAZ (c : Char) : Bool := 'A' ≤ c && c ≤ 'Z'

/-- Try `([A-Z]{4}[0-9]{1,2})\b` at the head of `s` (the leading `\b` is
checked by the caller); greedy on the digit pair with regex backtracking. -/
def tickerAt (s : Str) : Option (Str × Str) :=
  match s with
  | a :: b :: c :: d :: rest =>
    if isUpperAZ a && isUpperAZ b && isUpperAZ c && isUpperAZ d then
      match rest with
      | d1 :: d2 :: rest2 =>
        if d1.isDigit then
          if d2.isDigit then
            match rest2 with
            | [] => some ([a, b, c, d, d1, d2], [])
            | e :: _ =>
              if isWordChar e then none else some ([a, b, c, d, d1, d2], rest2)
          else if isWordChar d2 then none
          else some ([a, b, c, d, d1], d2 :: rest2)
        else none
      | [d1] => if d1.isDigit then some ([a, b, c, d, d1], []) else none
      | [] => none
    else none
  | _ => none

/-- `TICKER_PATTERN.findall`: left-to-right non-overlapping scan.  `atB`
records whether the previous character was a non-word character (or the
scan is at the start), i.e. whether `\b` holds before a word character. -/
def findTickersAux (fuel : Nat) (s : Str) (atB : Bool) : List Str :=
  match fuel, s with
  | 0, _ => []
  | _, [] => []
  | fuel + 1, c :: rest =>
    if atB then
      match tickerAt (c :: rest) with
      | some (m, rest2) => m :: findTickersAux fuel rest2 false
      | none => findTickersAux fuel rest (!isWordChar c)
    else findTickersAux fuel rest (!isWordChar c)

def findTickers (s : Str) : List Str := findTickersAux (s.length + 1) s true

/-- `COMPANY_PATTERNS` in source (dict) order. -/
def companyPatterns : List (Str × List Str) :=
  [(("petrobras").toList, [("PETR4").toList, ("PETR3").toList]),
   (("vale").toList, [("VALE3").toList]),
   (("itau").toList, [("ITUB4").toList, ("ITUB3").toList]),
   (("itaú").toList, [("ITUB4").toList, ("ITUB3").toList]),
   (("bradesco").toList, [("BBDC4").toList, ("BBDC3").toList]),
   (("banco do brasil").toList, [("BBAS3").toList]),
   (("ambev").toList, [("ABEV3").toList]),
   (("weg").toList, [("WEGE3").toList]),
   (("localiza").toList, [("RENT3").toList]),
   (("renner").toList, [("LREN3").toList]),
   (("magazine luiza").toList, [("MGLU3").toList]),
   (("magalu").toList, [("MGLU3").toList]),
   (("b3").toList, [("B3SA3").toList]),
   (("suzano").toList, [("SUZB3").toList]),
   (("jbs").toList, [("JBSS3").toList]),
   (("gerdau").toList, [("GGBR4").toList]),
   (("csn").toList, [("CSNA3").toList])]

/-- `RouterAgent._extract_tickers`.  `list(set(..))` iterates in an
unspecified order; it is modelled as first-occurrence deduplication (no
claim depends on the order). -/
def extractTickers (query : Str) : List Str :=
  let explicit := findTickers (pyUpper query)
  let qLower := pyLower query
  let fromCompanies := companyPatterns.foldl
    (fun acc p => if strContains qLower p.1 then acc ++ p.2 else acc) []
  (explicit ++ fromCompanies).dedup

/-- The conservative default intent built in both failure branches of the
router (`execute`'s `except` and `_parse_intent`'s `except`). -/
def defaultIntent (extracted : List Str) : QueryIntent :=
  { intent_type := .general
    tickers := extracted
    requires_rag := true
    requires_market_data := true
    requires_news := true
    confidence := 1/2 }

/-- `re.search(r"\{[\s\S]*\}", resp)`: the greedy match runs from the
first left brace to the last right brace, provided the latter comes
later. -/
def findJsonSpan (s : Str) : Option Str :=
  match s.findIdx? (· = lb), s.reverse.findIdx? (· = rb) with
  | some i, some jr =>
    let j := s.length - 1 - jr
    if i < j then some ((s.drop i).take (j - i + 1)) else none
  | _, _ => none

/-- `intent_type_map.get(s, QueryIntentType.GENERAL)`. -/
def intentTypeMap (s : Str) : QueryIntentType :=
  if s = ("financial_analysis").toList then .financial_analysis
  else if s = ("market_data").toList then .market_data
  else if s = ("news_sentiment").toList then .news_sentiment
  else if s = ("document_search").toList then .document_search
  else if s = ("comparison").toList then .comparison
  else if s = ("general").toList then .general
  else .general

/-- A JSON array of strings, else `none` (a non-list or non-string
elements make the Python code raise in `set`/pydantic validation). -/
def asStrList : Json → Option (List Str)
  | .arr xs => xs.foldr (fun j acc =>
      match j, acc with
      | .str s, some l => some (s :: l)
      | _, _ => none) (some [])
  | _ => none

/-- `data.get(key, dflt)` for the boolean intent flags.  A present
non-boolean value makes pydantic validation raise (v2 lax scalar
coercions are not modelled). -/
def getBoolD (data : List (Str × Json)) (key : Str) (dflt : Bool) : Except PyErr Bool :=
  match data.lookup key with
  | none => .ok dflt
  | some (.bool b) => .ok b
  | some _ => .error .validationErr

/-- `data.get("confidence", 0.8)` with pydantic float validation. -/
def getNumD (data : List (Str × Json)) (key : Str) (dflt : ℚ) : Except PyErr ℚ :=
  match data.lookup key with
  | none => .ok dflt
  | some (.num q) => .ok q
  | some _ => .error .validationErr

/-- `data.get("time_range")` with pydantic `str | None` validation. -/
def getStrOpt (data : List (Str × Json)) (key : Str) : Except PyErr (Option Str) :=
  match data.lookup key with
  | none => .ok none
  | some (.str s) => .ok (some s)
  | some .null => .ok none
  | some _ => .error .validationErr

def kTickers : Str := ("tickers").toList

def kReqRag : Str := ("requires_rag").toList

def kReqMkt : Str := ("requires_market_data").toList

def kReqNews : Str := ("requires_news").toList

def kConfidence : Str := ("confidence").toList

def kTimeRange : Str := ("time_range").toList

def kIntentType : Str := ("intent_type").toList

/-- The `QueryIntent(...)` construction at the end of `_parse_intent`'s
`try` block, applied to the decoded payload `data`. -/
def intentFromData (data : List (Str × Json)) (extracted : List Str) :
    Except PyErr QueryIntent := do
  let llmTickers ← match asStrList (jgetD data kTickers (.arr [])) with
    | some l => Except.ok l
    | none => Except.error PyErr.typeErr
  let rrag ← getBoolD data kReqRag true
  let rmkt ← getBoolD data kReqMkt true
  let rnews ← getBoolD data kReqNews false
  let conf ← getNumD data kConfidence (4/5)
  let trange ← getStrOpt data kTimeRange
  Except.ok
    { intent_type :=
        match jgetD data kIntentType (.str ("general").toList) with
        | .str s => intentTypeMap s
        | _ => .general
      entities :=
        [(("companies").toList, jgetD data ("companies").toList (.arr [])),
         (("reasoning").toList, jgetD data ("reasoning").toList (.str []))]
      tickers := (extracted ++ llmTickers).dedup
      time_range := trange
      requires_rag := rrag
      requires_market_data := rmkt
      requires_news := rnews
      confidence := conf }

/-- The `try` block of `RouterAgent._parse_intent`: extract the first
greedy JSON span (`ValueError` if absent), decode it (`JSONDecodeError`
on malformed text), then build the intent. -/
def parseIntentTry (resp : Str) (extracted : List Str) : Except PyErr QueryIntent := do
  let span ← match findJsonSpan resp with
    | some sp => Except.ok sp
    | none => Except.error PyErr.valueErr
  let data ← match jsonLoads span with
    | some (.obj fields) => Except.ok fields
    | some _ => Except.error PyErr.typeErr
    | none => Except.error PyErr.jsonDecode
  intentFromData data extracted

/-- `RouterAgent._parse_intent`: the `except (json.JSONDecodeError,
KeyError)` handler returns the conservative default; any other exception
escapes to `execute`. -/
def parseIntent (resp : Str) (extracted : List Str) : Except PyErr QueryIntent :=
  match parseIntentTry resp extracted with
  | .error .jsonDecode => .ok (defaultIntent extracted)
  | .error .keyErr => .ok (defaultIntent extracted)
  | r => r

/-- `RouterAgent.execute` restricted to its classification result: ticker
extraction, the LLM call (given as an outcome), parsing, and the
catch-all `except Exception` that yields the conservative default.  Total
by construction: classification failures never escape to the caller. -/
def routerExecute (rawQuery : Str) (llm : Except PyErr Str) : QueryIntent :=
  let extracted := extractTickers rawQuery
  match llm with
  | .error _ => defaultIntent extracted
  | .ok resp =>
    match parseIntent resp extracted with
    | .ok i => i
    | .error _ => defaultIntent extracted

/-- A `ValueError` ("No JSON found in response") escapes `_parse_intent`'s
`try` when the brace regex finds nothing. -/
theorem parseIntentTry_span_none {resp : Str} {ex : List Str}
    (h : findJsonSpan resp = none) : parseIntentTry resp ex = .error .valueErr := by
  simp [parseIntentTry, h, bind, Except.bind]

/-- A malformed span makes `json.loads` raise `JSONDecodeError`. -/
theorem parseIntentTry_decode_none {resp sp : Str} {ex : List Str}
    (h : findJsonSpan resp = some sp) (h2 : jsonLoads sp = none) :
    parseIntentTry resp ex = .error .jsonDecode := by
  simp [parseIntentTry, h, h2, bind, Except.bind]

/-- On any classification failure the router yields the conservative
default intent. -/
theorem routerExecute_fail_eq_default (rawQuery : Str) (llm : Except PyErr Str)
    (hfail : (∃ e, llm = .error e) ∨
      ∃ resp, llm = .ok resp ∧
        (findJsonSpan resp = none ∨
          ∃ span, findJsonSpan resp = some span ∧ jsonLoads span = none)) :
    routerExecute rawQuery llm = defaultIntent (extractTickers rawQuery) := by
  rcases hfail with ⟨e, rfl⟩ | ⟨resp, rfl, hspan | ⟨span, hsp, hload⟩⟩
  · simp [routerExecute]
  · simp [routerExecute, parseIntent, parseIntentTry_span_none hspan]
  · simp [routerExecute, parseIntent, parseIntentTry_decode_none hsp hload]

/-- C1: for every query and every failure of the classification step (the
LLM call raises, or its output contains no well-formed structured payload
— no brace span at all, or a span `json.loads` rejects), the router still
returns an intent with `requires_market_data`, `requires_rag` and
`requires_news` all true, confidence exactly 0.5 and intent type
`general`.  `routerExecute` is a total function, so the failure is never
propagated to the caller. -/
theorem C1_router_conservative_fallback (rawQuery : Str) (llm : Except PyErr Str)
    (hfail : (∃ e, llm = .error e) ∨
      ∃ resp, llm = .ok resp ∧
        (findJsonSpan resp = none ∨
          ∃ span, findJsonSpan resp = some span ∧ jsonLoads span = none)) :
    (routerExecute rawQuery llm).requires_market_data = true ∧
    (routerExecute rawQuery llm).requires_rag = true ∧
    (routerExecute rawQuery llm).requires_news = true ∧
    (routerExecute rawQuery llm).confidence = 1/2 ∧
    (routerExecute rawQuery llm).intent_type = .general := by
  rw [routerExecute_fail_eq_default rawQuery llm hfail]
  simp [defaultIntent]

/-- C1 witness: a concrete LLM reply with no structured payload. -/
theorem C1_router_conservative_fallback_witness :
    (findJsonSpan ("no payload here").toList = none) ∧
    ((routerExecute ("q").toList (Except.ok ("no payload here").toList)).requires_market_data
        = true ∧
      (routerExecute ("q").toList
        (Except.ok ("no payload here").toList)).requires_rag = true ∧
      (routerExecute ("q").toList
        (Except.ok ("no payload here").toList)).requires_news = true ∧
      (routerExecute ("q").toList
        (Except.ok ("no payload here").toList)).confidence = 1/2 ∧
      (routerExecute ("q").toList
        (Except.ok ("no payload here").toList)).intent_type = .general) :=
  ⟨by decide,
   C1_router_conservative_fallback (("q").toList) (Except.ok ("no payload here").toList)
     (Or.inr ⟨("no payload here").toList, rfl, Or.inl (by decide)⟩)⟩

/-- A well-formed payload that omits the `requires_news` flag. -/
def c9Resp : Str := [lb] ++ ("\"intent_type\": \"general\"").toList ++ [rb]

/-- C9 counterexample: on a well-formed payload in which `requires_news`
is absent, the merged intent has `requires_news = false`, not the
conservative `true` the claim states (the source defaults
`requires_news` to `False`, unlike the other two flags). -/
theorem C9_counterexample_news_defaults_false :
    (routerExecute ("q").toList (Except.ok c9Resp)).requires_news = false := by
  decide

/-- C9 amended: for every well-formed payload, an absent
`requires_rag` / `requires_market_data` flag defaults to the conservative
`true`, an absent `requires_news` flag defaults to `false`, and flags
present as JSON booleans are taken from the payload unchanged. -/
theorem C9_missing_flag_defaults (data : List (Str × Json)) (extracted : List Str)
    (i : QueryIntent) (hok : intentFromData data extracted = .ok i) :
    (data.lookup kReqRag = none → i.requires_rag = true) ∧
    (data.lookup kReqMkt = none → i.requires_market_data = true) ∧
    (data.lookup kReqNews = none → i.requires_news = false) ∧
    (∀ b, data.lookup kReqRag = some (.bool b) → i.requires_rag = b) ∧
    (∀ b, data.lookup kReqMkt = some (.bool b) → i.requires_market_data = b) ∧
    (∀ b, data.lookup kReqNews = some (.bool b) → i.requires_news = b) := by
  simp only [intentFromData, bind, Except.bind] at hok
  rcases h1 : asStrList (jgetD data kTickers (.arr [])) with _ | l <;> rw [h1] at hok
  · simp at hok
  rcases h2 : getBoolD data kReqRag true with e | brag <;> rw [h2] at hok
  · simp at hok
  rcases h3 : getBoolD data kReqMkt true with e | bmkt <;> rw [h3] at hok
  · simp at hok
  rcases h4 : getBoolD data kReqNews false with e | bnews <;> rw [h4] at hok
  · simp at hok
  rcases h5 : getNumD data kConfidence (4/5) with e | conf <;> rw [h5] at hok
  · simp at hok
  rcases h6 : getStrOpt data kTimeRange with e | trange <;> rw [h6] at hok
  · simp at hok
  simp only [Except.ok.injEq] at hok
  subst hok
  refine ⟨?_, ?_, ?_, ?_, ?_, ?_⟩
  · intro hl; simp [getBoolD, hl] at h2; simp [h2]
  · intro hl; simp [getBoolD, hl] at h3; simp [h3]
  · intro hl; simp [getBoolD, hl] at h4; simp [h4]
  · intro b hl; simp [getBoolD, hl] at h2; simp [h2]
  · intro b hl; simp [getBoolD, hl] at h3; simp [h3]
  · intro b hl; simp [getBoolD, hl] at h4; simp [h4]

/-- Payload with only `requires_news` present (set to `true`). -/
def c9Data : List (Str × Json) := [(kReqNews, Json.bool true)]

/-- The intent `intentFromData` builds from `c9Data`. -/
def c9Intent : QueryIntent :=
  { intent_type := .general
    entities :=
      [(("companies").toList, .arr []), (("reasoning").toList, .str [])]
    tickers := []
    time_range := none
    requires_rag := true
    requires_market_data := true
    requires_news := true
    confidence := 4/5 }

/-- C9 witness: the amended statement applied to a concrete payload. -/
theorem C9_missing_flag_defaults_witness :
    intentFromData c9Data [] = .ok c9Intent ∧
    (c9Data.lookup kReqRag = none → c9Intent.requires_rag = true) ∧
    (c9Data.lookup kReqMkt = none → c9Intent.requires_market_data = true) ∧
    (c9Data.lookup kReqNews = none → c9Intent.requires_news = false) ∧
    (∀ b, c9Data.lookup kReqRag = some (.bool b) → c9Intent.requires_rag = b) ∧
    (∀ b, c9Data.lookup kReqMkt = some (.bool b) → c9Intent.requires_market_data = b) ∧
    (∀ b, c9Data.lookup kReqNews = some (.bool b) → c9Intent.requires_news = b) :=
  ⟨rfl, C9_missing_flag_defaults c9Data [] c9Intent rfl⟩

/-! ### `src/tools/base.py` — retry-wrapped tool execution (C4)

`BaseTool.execute` wraps `_execute` in a tenacity retry decorator that
retries only on `(ConnectionError, TimeoutError)` and stops after
`max_retries` attempts.  The underlying operation is modelled as a
function from the attempt number to that attempt's outcome. -/

/-- Outcome of one underlying attempt: success, a transient error
(`ConnectionError` / `TimeoutError`), or a non-transient error (with
`isApi` telling `ExternalAPIError` apart from other exceptions). -/
inductive AttemptOut (α : Type) where
  | ok (v : α) : AttemptOut α
  | transient (msg : Str) : AttemptOut α
  | fatal (isApi : Bool) (msg : Str) : AttemptOut α

/-- What the retry-wrapped call produces: a value, tenacity's
`RetryError` carrying the last transient error, or the immediately
re-raised non-transient exception. -/
inductive RetryOut (α : Type) where
  | ok (v : α) : RetryOut α
  | retryExhausted (lastMsg : Str) : RetryOut α
  | fatal (isApi : Bool) (msg : Str) : RetryOut α
deriving DecidableEq

/-- The tenacity loop: run attempt `k`; retry a transient failure while
`k + 1 < maxAttempts`, else raise `RetryError` with the last error; stop
at once on success or a non-transient error.  Returns the outcome and the
number of attempts consumed.  `fuel` bounds the recursion and is chosen
`≥ maxAttempts` at the call site, making the `0` case unreachable. -/
def runRetryGo {α : Type} (attempts : Nat → AttemptOut α) (maxAttempts : Nat) :
    Nat → Nat → Str → RetryOut α × Nat
  | 0, k, last => (.retryExhausted last, k)
  | fuel + 1, k, last =>
    match attempts k with
    | .ok v => (.ok v, k + 1)
    | .fatal isApi msg => (.fatal isApi msg, k + 1)
    | .transient msg =>
      if k + 1 < maxAttempts then runRetryGo attempts maxAttempts fuel (k + 1) msg
      else (.retryExhausted msg, k + 1)

/-- `retry(retry=retry_if_exception_type((ConnectionError, TimeoutError)),
stop=stop_after_attempt(maxAttempts), ...)` applied to the operation. -/
def runRetry {α : Type} (attempts : Nat → AttemptOut α) (maxAttempts : Nat) :
    RetryOut α × Nat :=
  runRetryGo attempts maxAttempts (maxAttempts + 1) 0 []

/-- `ToolResult` (pydantic wrapper returned by every tool call). -/
structure ToolResult (α : Type) where
  success : Bool
  data : Option α := none
  error : Option Str := none
  execution_time_ms : ℚ := 0
  source : Str := []
deriving DecidableEq

/-- `BaseTool.execute`: run the retry-wrapped operation and convert every
outcome — including both exception classes — into an explicit
`ToolResult`; the model is total, so no exception reaches the caller.
`elapsed` stands for the measured wall-clock duration. -/
def toolExecute {α : Type} (name : Str) (elapsed : ℚ) (maxAttempts : Nat)
    (attempts : Nat → AttemptOut α) : ToolResult α :=
  match (runRetry attempts maxAttempts).1 with
  | .ok v =>
    { success := true, data := some v, execution_time_ms := elapsed, source := name }
  | .retryExhausted last =>
    { success := false, error := some (("Max retries exceeded: ").toList ++ last),
      execution_time_ms := elapsed, source := name }
  | .fatal true msg =>
    { success := false, error := some msg, execution_time_ms := elapsed, source := name }
  | .fatal false msg =>
    { success := false, error := some (("Unexpected error: ").toList ++ msg),
      execution_time_ms := elapsed, source := name }

/-- Reaching attempt `i` (all earlier attempts transient and below the
stop bound) and succeeding there ends the loop at once. -/
theorem runRetryGo_ok {α : Type} (attempts : Nat → AttemptOut α) (maxAttempts : Nat)
    (v : α) :
    ∀ (i k fuel : Nat) (last : Str), i < fuel →
      (∀ j, j < i → (∃ m, attempts (k + j) = .transient m) ∧ k + j + 1 < maxAttempts) →
      attempts (k + i) = .ok v →
      runRetryGo attempts maxAttempts fuel k last = (.ok v, k + i + 1) := by
  intro i
  induction i with
  | zero =>
    intro k fuel last hfuel _ hok
    obtain ⟨f, rfl⟩ : ∃ f, fuel = f + 1 := ⟨fuel - 1, by omega⟩
    simp only [runRetryGo]
    rw [Nat.add_zero] at hok
    rw [hok]
  | succ i ih =>
    intro k fuel last hfuel htr hok
    obtain ⟨f, rfl⟩ : ∃ f, fuel = f + 1 := ⟨fuel - 1, by omega⟩
    obtain ⟨⟨m, hm⟩, hlt⟩ := htr 0 (Nat.succ_pos i)
    rw [Nat.add_zero] at hm hlt
    simp only [runRetryGo, hm, if_pos hlt]
    have := ih (k + 1) f m (by omega)
      (fun j hj => by
        have := htr (j + 1) (Nat.succ_lt_succ hj)
        constructor
        · obtain ⟨⟨m2, hm2⟩, _⟩ := this
          exact ⟨m2, by rw [show k + 1 + j = k + (j + 1) by omega]; exact hm2⟩
        · omega)
      (by rw [show k + 1 + i = k + (i + 1) by omega]; exact hok)
    rw [this, show k + 1 + i + 1 = k + (i + 1) + 1 by omega]

/-- Reaching attempt `i` and failing non-transiently there re-raises at
once: no further attempt is made. -/
theorem runRetryGo_fatal {α : Type} (attempts : Nat → AttemptOut α) (maxAttempts : Nat)
    (isApi : Bool) (msg : Str) :
    ∀ (i k fuel : Nat) (last : Str), i < fuel →
      (∀ j, j < i → (∃ m, attempts (k + j) = .transient m) ∧ k + j + 1 < maxAttempts) →
      attempts (k + i) = .fatal isApi msg →
      runRetryGo attempts maxAttempts fuel k last = (.fatal isApi msg, k + i + 1) := by
  intro i
  induction i with
  | zero =>
    intro k fuel last hfuel _ hfat
    obtain ⟨f, rfl⟩ : ∃ f, fuel = f + 1 := ⟨fuel - 1, by omega⟩
    simp only [runRetryGo]
    rw [Nat.add_zero] at hfat
    rw [hfat]
  | succ i ih =>
    intro k fuel last hfuel htr hfat
    obtain ⟨f, rfl⟩ : ∃ f, fuel = f + 1 := ⟨fuel - 1, by omega⟩
    obtain ⟨⟨m, hm⟩, hlt⟩ := htr 0 (Nat.succ_pos i)
    rw [Nat.add_zero] at hm hlt
    simp only [runRetryGo, hm, if_pos hlt]
    have := ih (k + 1) f m (by omega)
      (fun j hj => by
        have := htr (j + 1) (Nat.succ_lt_succ hj)
        constructor
        · obtain ⟨⟨m2, hm2⟩, _⟩ := this
          exact ⟨m2, by rw [show k + 1 + j = k + (j + 1) by omega]; exact hm2⟩
        · omega)
      (by rw [show k + 1 + i = k + (i + 1) by omega]; exact hfat)
    rw [this, show k + 1 + i + 1 = k + (i + 1) + 1 by omega]

/-- When attempts `k .. k+i` are all transient and `k+i` is the last
admissible attempt, the loop ends in `RetryError` carrying the final
transient message, after exactly `maxAttempts` attempts. -/
theorem runRetryGo_exhaust {α : Type} (attempts : Nat → AttemptOut α)
    (maxAttempts : Nat) (m : Nat → Str) :
    ∀ (i k fuel : Nat) (last : Str), i < fuel →
      (∀ j, j ≤ i → attempts (k + j) = .transient (m (k + j))) →
      k + i + 1 = maxAttempts →
      runRetryGo attempts maxAttempts fuel k last =
        (.retryExhausted (m (k + i)), maxAttempts) := by
  intro i
  induction i with
  | zero =>
    intro k fuel last hfuel htr hmax
    obtain ⟨f, rfl⟩ : ∃ f, fuel = f + 1 := ⟨fuel - 1, by omega⟩
    have hm := htr 0 (Nat.le_refl 0)
    rw [Nat.add_zero] at hm hmax
    simp only [runRetryGo, hm]
    rw [if_neg (by omega), hmax]
    simp
  | succ i ih =>
    intro k fuel last hfuel htr hmax
    obtain ⟨f, rfl⟩ : ∃ f, fuel = f + 1 := ⟨fuel - 1, by omega⟩
    have hm := htr 0 (Nat.zero_le _)
    rw [Nat.add_zero] at hm
    simp only [runRetryGo, hm]
    rw [if_pos (by omega)]
    have := ih (k + 1) f (m k) (by omega)
      (fun j hj => by
        have := htr (j + 1) (Nat.succ_le_succ hj)
        rw [show k + 1 + j = k + (j + 1) by omega]; exact this)
      (by omega)
    rw [this, show k + 1 + i = k + (i + 1) by omega]

/-- C4: for every retry-wrapped tool call, the caller always receives an
explicit `ToolResult` (the model is a total function, so no unchecked
exception escapes), and: an attempt bound reached only through transient
failures yields a terminal failure result whose error message carries the
last underlying error; a non-transient failure at attempt `i` produces a
failure result after exactly `i + 1` attempts (no retry); a success at
attempt `i` produces a success result carrying the value. -/
theorem C4_tool_retry_contract {α : Type} (name : Str) (elapsed : ℚ)
    (maxAttempts : Nat) (attempts : Nat → AttemptOut α) :
    (∀ i v, i < maxAttempts →
      (∀ j, j < i → ∃ m, attempts j = .transient m) →
      attempts i = .ok v →
      runRetry attempts maxAttempts = (.ok v, i + 1) ∧
      (toolExecute name elapsed maxAttempts attempts).success = true ∧
      (toolExecute name elapsed maxAttempts attempts).data = some v) ∧
    (∀ i isApi msg, i < maxAttempts →
      (∀ j, j < i → ∃ m, attempts j = .transient m) →
      attempts i = .fatal isApi msg →
      runRetry attempts maxAttempts = (.fatal isApi msg, i + 1) ∧
      (toolExecute name elapsed maxAttempts attempts).success = false) ∧
    (∀ m : Nat → Str, 0 < maxAttempts →
      (∀ j, j < maxAttempts → attempts j = .transient (m j)) →
      runRetry attempts maxAttempts = (.retryExhausted (m (maxAttempts - 1)), maxAttempts) ∧
      (toolExecute name elapsed maxAttempts attempts).success = false ∧
      (toolExecute name elapsed maxAttempts attempts).error =
        some (("Max retries exceeded: ").toList ++ m (maxAttempts - 1))) := by
  refine ⟨?_, ?_, ?_⟩
  · intro i v hi htr hok
    have hrun : runRetry attempts maxAttempts = (.ok v, i + 1) := by
      unfold runRetry
      have := runRetryGo_ok attempts maxAttempts v i 0 (maxAttempts + 1) []
        (by omega)
        (fun j hj => ⟨by simpa using htr j hj, by omega⟩)
        (by simpa using hok)
      simpa using this
    exact ⟨hrun, by simp [toolExecute, hrun], by simp [toolExecute, hrun]⟩
  · intro i isApi msg hi htr hfat
    have hrun : runRetry attempts maxAttempts = (.fatal isApi msg, i + 1) := by
      unfold runRetry
      have := runRetryGo_fatal attempts maxAttempts isApi msg i 0 (maxAttempts + 1) []
        (by omega)
        (fun j hj => ⟨by simpa using htr j hj, by omega⟩)
        (by simpa using hfat)
      simpa using this
    refine ⟨hrun, ?_⟩
    cases isApi <;> simp [toolExecute, hrun]
  · intro m hpos htr
    have hrun : runRetry attempts maxAttempts =
        (.retryExhausted (m (maxAttempts - 1)), maxAttempts) := by
      unfold runRetry
      have := runRetryGo_exhaust attempts maxAttempts m (maxAttempts - 1) 0
        (maxAttempts + 1) [] (by omega)
        (fun j hj => by simpa using htr j (by omega))
        (by omega)
      simpa using this
    exact ⟨hrun, by simp [toolExecute, hrun], by simp [toolExecute, hrun]⟩

/-- One concrete attempt schedule: transient, then success. -/
def c4Attempts : Nat → AttemptOut Nat
  | 0 => .transient ("timed out").toList
  | 1 => .ok 7
  | _ + 2 => .fatal false ("unreachable").toList

/-- C4 witness: the contract applied at a concrete schedule — one
transient failure followed by a success within the bound of 3. -/
theorem C4_tool_retry_contract_witness :
    runRetry c4Attempts 3 = (.ok 7, 2) ∧
    (toolExecute ("tool").toList 0 3 c4Attempts).success = true ∧
    (toolExecute ("tool").toList 0 3 c4Attempts).data = some 7 :=
  (C4_tool_retry_contract (("tool").toList) 0 3 c4Attempts).1 1 7 (by decide)
    (by
      intro j hj
      interval_cases j
      exact ⟨("timed out").toList, rfl⟩)
    rfl

/-! ### `src/agents/collector.py` — CollectorAgent (C2)

`execute` dispatches up to three sub-tasks (market data, news, CVM
filings) selected by the intent, gathers them with
`asyncio.gather(..., return_exceptions=True)`, and folds the results:
an exception result is logged and skipped, a dict result is merged and
its source name appended.  Sub-task outcomes are explicit arguments
(`.error` models the coroutine raising); timestamps are passed in. -/

/-- `MarketData` (pydantic): the fields the modelled code flows through;
optional metadata fields never inspected by the collector are omitted. -/
structure MarketData where
  ticker : Str
  company_name : Str
  current_price : ℚ
  change_percent : ℚ
  volume : ℤ
deriving DecidableEq

/-- `NewsItem` (pydantic): datetime fields are modelled as integer
timestamps. -/
structure NewsItem where
  title : Str
  source : Str
  url : Str
  published_at : ℤ
  tickers : List Str := []
deriving DecidableEq

/-- `CollectedData` (pydantic). `raw_data` is the string-keyed map of
raw source blobs (the collector only ever writes the `cvm` key). -/
structure CollectedData where
  market_data : List MarketData := []
  news_items : List NewsItem := []
  raw_data : List (Str × List Json) := []
  sources : List Str := []
  collection_timestamp : ℤ := 0

/-- The dict shapes returned by the three sub-task coroutines. -/
inductive TaskDict where
  | market (xs : List MarketData) : TaskDict
  | news (xs : List NewsItem) : TaskDict
  | cvm (xs : List Json) : TaskDict

/-- The result-merging loop body of `CollectorAgent.execute`. -/
def mergeTaskResult (cd : CollectedData) (r : Except PyErr TaskDict) : CollectedData :=
  match r with
  | .error _ => cd
  | .ok (.market xs) =>
    { cd with market_data := cd.market_data ++ xs,
              sources := cd.sources ++ [("yahoo_finance").toList] }
  | .ok (.news xs) =>
    { cd with news_items := cd.news_items ++ xs,
              sources := cd.sources ++ [("news").toList] }
  | .ok (.cvm xs) =>
    { cd with raw_data := cd.raw_data ++ [(("cvm").toList, xs)],
              sources := cd.sources ++ [("cvm").toList] }

/-- `CollectorAgent.execute` given an intent: build the task list from
the intent's capability flags and ticker truthiness, gather the outcomes
in dispatch order, and merge.  Total: one sub-task's exception never
aborts the others or the collection. -/
def collectorExecute (intent : QueryIntent) (now : ℤ)
    (mRes : Except PyErr (List MarketData)) (nRes : Except PyErr (List NewsItem))
    (cRes : Except PyErr (List Json)) : CollectedData :=
  let results : List (Except PyErr TaskDict) :=
    (if intent.requires_market_data && !intent.tickers.isEmpty
      then [mRes.map .market] else []) ++
    (if intent.requires_news && !intent.tickers.isEmpty
      then [nRes.map .news] else []) ++
    (if !intent.tickers.isEmpty then [cRes.map .cvm] else [])
  results.foldl mergeTaskResult
    { market_data := [], news_items := [], raw_data := [], sources := [],
      collection_timestamp := now }

/-- The three collector sub-task kinds. -/
inductive CollTask where
  | market : CollTask
  | news : CollTask
  | cvm : CollTask
deriving DecidableEq

/-- Whether `execute` dispatches the given sub-task for this intent. -/
def dispatched (intent : QueryIntent) : CollTask → Bool
  | .market => intent.requires_market_data && !intent.tickers.isEmpty
  | .news => intent.requires_news && !intent.tickers.isEmpty
  | .cvm => !intent.tickers.isEmpty

/-- The source name each sub-task appends on success. -/
def sourceName : CollTask → Str
  | .market => ("yahoo_finance").toList
  | .news => ("news").toList
  | .cvm => ("cvm").toList

/-- Whether the given sub-task's outcome is an exception. -/
def outcomeFailed (mRes : Except PyErr (List MarketData))
    (nRes : Except PyErr (List NewsItem)) (cRes : Except PyErr (List Json)) :
    CollTask → Bool
  | .market => !mRes.isOk
  | .news => !nRes.isOk
  | .cvm => !cRes.isOk

/-- Full characterization of the collector's aggregation: each section of
`CollectedData` holds exactly the contribution of its sub-task when that
sub-task was dispatched and returned normally, and the source list is the
dispatch-ordered list of the names of the sub-tasks that returned
normally. -/
theorem collectorExecute_characterization (intent : QueryIntent) (now : ℤ)
    (mRes : Except PyErr (List MarketData)) (nRes : Except PyErr (List NewsItem))
    (cRes : Except PyErr (List Json)) :
    (collectorExecute intent now mRes nRes cRes).market_data =
      (if dispatched intent .market then (mRes.toOption).getD [] else []) ∧
    (collectorExecute intent now mRes nRes cRes).news_items =
      (if dispatched intent .news then (nRes.toOption).getD [] else []) ∧
    (collectorExecute intent now mRes nRes cRes).raw_data =
      (if dispatched intent .cvm ∧ cRes.isOk then
        [(("cvm").toList, (cRes.toOption).getD [])] else []) ∧
    (collectorExecute intent now mRes nRes cRes).sources =
      ((if dispatched intent .market ∧ mRes.isOk then [sourceName .market] else []) ++
       (if dispatched intent .news ∧ nRes.isOk then [sourceName .news] else []) ++
       (if dispatched intent .cvm ∧ cRes.isOk then [sourceName .cvm] else [])) ∧
    (collectorExecute intent now mRes nRes cRes).collection_timestamp = now := by
  unfold collectorExecute dispatched sourceName
  rcases mRes with em | vm <;> rcases nRes with en | vn <;> rcases cRes with ec | vc <;>
    rcases hm : intent.requires_market_data && !intent.tickers.isEmpty with _ | _ <;>
    rcases hn : intent.requires_news && !intent.tickers.isEmpty with _ | _ <;>
    rcases ht : !intent.tickers.isEmpty with _ | _ <;>
      simp_all [mergeTaskResult, Except.map, Except.isOk, Except.toBool, Except.toOption]

/-- C2: when exactly one of the dispatched collector sub-tasks raises,
the returned `CollectedData` carries the contributions of all the other
dispatched sub-tasks, their source names are present, the failed
sub-task's source name is absent from the source list, and the collection
still completes (the model is total). -/
theorem C2_collector_partial_failure (intent : QueryIntent) (now : ℤ)
    (mRes : Except PyErr (List MarketData)) (nRes : Except PyErr (List NewsItem))
    (cRes : Except PyErr (List Json)) (k : CollTask)
    (hdisp : dispatched intent k = true)
    (hfail : outcomeFailed mRes nRes cRes k = true)
    (hok : ∀ j, j ≠ k → dispatched intent j = true →
      outcomeFailed mRes nRes cRes j = false) :
    sourceName k ∉ (collectorExecute intent now mRes nRes cRes).sources ∧
    (∀ j, j ≠ k → dispatched intent j = true →
      sourceName j ∈ (collectorExecute intent now mRes nRes cRes).sources) ∧
    (∀ xs, mRes = .ok xs → dispatched intent .market = true → k ≠ .market →
      (collectorExecute intent now mRes nRes cRes).market_data = xs) ∧
    (∀ xs, nRes = .ok xs → dispatched intent .news = true → k ≠ .news →
      (collectorExecute intent now mRes nRes cRes).news_items = xs) ∧
    (∀ xs, cRes = .ok xs → dispatched intent .cvm = true → k ≠ .cvm →
      (collectorExecute intent now mRes nRes cRes).raw_data = [(("cvm").toList, xs)]) := by
  obtain ⟨hmd, hnd, hrd, hsrc, _⟩ :=
    collectorExecute_characterization intent now mRes nRes cRes
  refine ⟨?_, ?_, ?_, ?_, ?_⟩
  · rw [hsrc]
    rcases k with _ | _ | _ <;>
      simp_all [outcomeFailed, sourceName]
  · intro j hj hdj
    have hokj := hok j hj hdj
    rw [hsrc]
    rcases j with _ | _ | _ <;> rcases k with _ | _ | _ <;>
      simp_all [outcomeFailed, sourceName]
  · intro xs hxs hdm hkm
    rw [hmd, hxs]
    simp [hdm, Except.toOption]
  · intro xs hxs hdn hkn
    rw [hnd, hxs]
    simp [hdn, Except.toOption]
  · intro xs hxs hdc hkc
    rw [hrd, hxs]
    simp [hdc, Except.isOk, Except.toBool, Except.toOption]

/-- Intent used in the C2 witness: market data and news requested, one
ticker present, so all three sub-tasks are dispatched. -/
def c2Intent : QueryIntent :=
  { intent_type := .market_data
    tickers := [("PETR4").toList]
    requires_rag := false
    requires_market_data := true
    requires_news := true
    confidence := 1 }

/-- One market-data record for the C2 witness. -/
def c2Quote : MarketData :=
  { ticker := ("PETR4").toList
    company_name := ("Petrobras").toList
    current_price := 38
    change_percent := 1/2
    volume := 1000 }

/-- C2 witness: news raises, market and CVM succeed — `news` is absent
from the sources and the other two contributions survive. -/
theorem C2_collector_partial_failure_witness :
    sourceName .news ∉
      (collectorExecute c2Intent 0 (.ok [c2Quote]) (.error .valueErr) (.ok [])).sources ∧
    (∀ j, j ≠ CollTask.news → dispatched c2Intent j = true →
      sourceName j ∈
        (collectorExecute c2Intent 0 (.ok [c2Quote]) (.error .valueErr) (.ok [])).sources) ∧
    (∀ xs, (Except.ok [c2Quote] : Except PyErr (List MarketData)) = Except.ok xs →
      dispatched c2Intent .market = true →
      CollTask.news ≠ CollTask.market →
      (collectorExecute c2Intent 0 (.ok [c2Quote])
        (.error .valueErr) (.ok [])).market_data = xs) ∧
    (∀ xs, (Except.error PyErr.valueErr : Except PyErr (List NewsItem)) = Except.ok xs →
      dispatched c2Intent .news = true → CollTask.news ≠ CollTask.news →
      (collectorExecute c2Intent 0 (.ok [c2Quote])
        (.error .valueErr) (.ok [])).news_items = xs) ∧
    (∀ xs, (Except.ok [] : Except PyErr (List Json)) = Except.ok xs →
      dispatched c2Intent .cvm = true → CollTask.news ≠ CollTask.cvm →
      (collectorExecute c2Intent 0 (.ok [c2Quote])
        (.error .valueErr) (.ok [])).raw_data = [(("cvm").toList, xs)]) :=
  C2_collector_partial_failure c2Intent 0 (.ok [c2Quote]) (.error .valueErr) (.ok [])
    CollTask.news (by decide) (by decide)
    (by intro j hj _; rcases j with _ | _ | _ <;> simp_all <;> rfl)

/-! ### `src/workflows/graph.py` — orchestration state machine (C3)

The LangGraph wiring: nodes `router → collector → rag → analyst →
reporter` with the conditional edges of `_route_after_router`,
`_route_after_collector` and `_route_after_reporter`
(`WorkflowNodes.is_complete`).  Stage bodies are irrelevant to the
routing claims; the routing functions read the intent, and the reporter
gate reads the response content and error count, which are supplied per
visit. -/

inductive Stage where
  | router : Stage
  | collector : Stage
  | rag : Stage
  | analyst : Stage
  | reporter : Stage
deriving DecidableEq

/-- The labels `_route_after_router` can return. -/
inductive RouterChoice where
  | collect_and_retrieve : RouterChoice
  | collect_only : RouterChoice
  | retrieve_only : RouterChoice
  | analyze_direct : RouterChoice
deriving DecidableEq

/-- `FinancialResearchWorkflow._route_after_router`: note that
`needs_collection` is `intent.requires_market_data or intent.tickers`
(list truthiness) — the news flag is not consulted. -/
def routeAfterRouter (intent : Option QueryIntent) : RouterChoice :=
  match intent with
  | none => .collect_and_retrieve
  | some intent =>
    let needs_collection := intent.requires_market_data || !intent.tickers.isEmpty
    let needs_rag := intent.requires_rag
    if needs_collection && needs_rag then .collect_and_retrieve
    else if needs_collection then .collect_only
    else if needs_rag then .retrieve_only
    else .analyze_direct

/-- The conditional-edge mapping registered for the router node. -/
def routerEdge : RouterChoice → Stage
  | .collect_and_retrieve => .collector
  | .collect_only => .collector
  | .retrieve_only => .rag
  | .analyze_direct => .analyst

/-- `FinancialResearchWorkflow._route_after_collector` composed with its
edge mapping. -/
def routeAfterCollector (intent : Option QueryIntent) : Stage :=
  match intent with
  | some intent => if intent.requires_rag then .rag else .analyst
  | none => .analyst

/-- The labels `WorkflowNodes.is_complete` can return. -/
inductive ReportVerdict where
  | complete : ReportVerdict
  | retry : ReportVerdict
  | failed : ReportVerdict
deriving DecidableEq

/-- `WorkflowNodes.is_complete`: a present, non-empty response completes;
more than 5 accumulated errors end the run in the degraded terminal
state; otherwise loop back to the analyst. -/
def isComplete (responseContent : Option Str) (errorCount : Nat) : ReportVerdict :=
  if (match responseContent with | some c => !c.isEmpty | none => false) then .complete
  else if errorCount > 5 then .failed
  else .retry

/-- One transition of the compiled graph.  `verdict` is the reporter
gate's result for the current reporter visit; `none` is `END`. -/
def nextStage (s : Stage) (intent : Option QueryIntent) (verdict : ReportVerdict) :
    Option Stage :=
  match s with
  | .router => some (routerEdge (routeAfterRouter intent))
  | .collector => some (routeAfterCollector intent)
  | .rag => some .analyst
  | .analyst => some .reporter
  | .reporter =>
    match verdict with
    | .complete => none
    | .failed => none
    | .retry => some .analyst

/-- The visited-stage list from `s`, for a fixed intent and a verdict per
reporter visit (`v` counts reporter visits so far); `fuel` truncates the
potentially unbounded retry loop. -/
def traceFrom (intent : Option QueryIntent) (verdicts : Nat → ReportVerdict) :
    Nat → Stage → Nat → List Stage
  | 0, s, _ => [s]
  | fuel + 1, s, v =>
    s :: (match nextStage s intent (verdicts v) with
      | none => []
      | some s2 => traceFrom intent verdicts fuel s2
          (if s = .reporter then v + 1 else v))

/-- A full run's visited stages, entry point `router`. -/
def workflowTrace (fuel : Nat) (intent : Option QueryIntent)
    (verdicts : Nat → ReportVerdict) : List Stage :=
  traceFrom intent verdicts fuel .router 0

/-- Intent that needs news only (no market data flag, no tickers, no
retrieval). -/
def c3NewsOnlyIntent : QueryIntent :=
  { intent_type := .news_sentiment
    tickers := []
    requires_rag := false
    requires_market_data := false
    requires_news := true
    confidence := 1 }

/-- C3 counterexample: an intent that needs news data (a capability flag
the claim's routing table sends to `collect`) is routed by the code
directly to `analyze` — `_route_after_router` tests only
`requires_market_data or tickers`, never the news flag. -/
theorem C3_counterexample_news_not_collected :
    routerEdge (routeAfterRouter (some c3NewsOnlyIntent)) = Stage.analyst ∧
    Stage.analyst ≠ Stage.collector := by
  constructor
  · rfl
  · decide

/-- From a non-`rag` stage, an intent with `requires_rag = false` can
never reach the `rag` stage. -/
theorem traceFrom_no_rag (intent : QueryIntent)
    (hr : intent.requires_rag = false) (verdicts : Nat → ReportVerdict) :
    ∀ (fuel : Nat) (s : Stage) (v : Nat), s ≠ .rag →
      Stage.rag ∉ traceFrom (some intent) verdicts fuel s v := by
  intro fuel
  induction fuel with
  | zero => intro s v hs; simpa [traceFrom] using fun h => hs h.symm
  | succ f ih =>
    intro s v hs
    simp only [traceFrom, List.mem_cons]
    push_neg
    refine ⟨fun h => hs h.symm, ?_⟩
    rcases s with _ | _ | _ | _ | _
    · rcases hrc : routeAfterRouter (some intent) with _ | _ | _ | _ <;>
        simp only [nextStage, routerEdge, hrc] <;>
        first
          | exact ih _ _ (by decide)
          | · exfalso
              revert hrc
              rcases hmm : intent.requires_market_data with _ | _ <;>
                rcases htt : intent.tickers.isEmpty with _ | _ <;>
                simp [routeAfterRouter, hr, hmm, htt]
    · simp only [nextStage, routeAfterCollector, hr]
      exact ih _ _ (by decide)
    · exact absurd rfl hs
    · simp only [nextStage]
      exact ih _ _ (by decide)
    · rcases verdicts v with _ | _ | _ <;> simp only [nextStage] <;>
        first
          | exact ih _ _ (by decide)
          | simp

/-- C3 amended: the next stage after classify is determined by
`(needs-market-data ∨ tickers present)` and the retrieval flag — the
news flag is not consulted: both data-needing cases go to `collect`,
retrieval-only goes to `retrieve`, neither goes to `analyze`; after
collect, the retrieval flag alone decides.  For the claim's scenario
(`needsMarketData = true`, `needsRetrieval = false`) every run visits
`classify → collect → analyze → report` and never visits `retrieve`;
when the first report completes, the trace is exactly that sequence. -/
theorem C3_conditional_routing (intent : QueryIntent) (verdicts : Nat → ReportVerdict) :
    (routerEdge (routeAfterRouter (some intent)) =
      (if (intent.requires_market_data || !intent.tickers.isEmpty) &&
          intent.requires_rag then Stage.collector
       else if intent.requires_market_data || !intent.tickers.isEmpty then Stage.collector
       else if intent.requires_rag then Stage.rag
       else Stage.analyst)) ∧
    (routeAfterCollector (some intent) =
      (if intent.requires_rag then Stage.rag else Stage.analyst)) ∧
    (intent.requires_market_data = true → intent.requires_rag = false →
      (∀ fuel, Stage.rag ∉ workflowTrace fuel (some intent) verdicts) ∧
      (verdicts 0 = .complete → ∀ f,
        workflowTrace (f + 4) (some intent) verdicts =
          [.router, .collector, .analyst, .reporter])) := by
  refine ⟨?_, ?_, ?_⟩
  · rcases hm : intent.requires_market_data with _ | _ <;>
      rcases ht : intent.tickers.isEmpty with _ | _ <;>
      rcases hr : intent.requires_rag with _ | _ <;>
      simp [routeAfterRouter, routerEdge, hm, ht, hr]
  · simp [routeAfterCollector]
  · intro hm hr
    constructor
    · intro fuel
      exact traceFrom_no_rag intent hr verdicts fuel .router 0 (by decide)
    · intro hv f
      simp [workflowTrace, traceFrom, nextStage, routeAfterRouter, routerEdge,
        routeAfterCollector, hm, hr, hv]

/-- Scenario intent for the C3 witness. -/
def c3ScenIntent : QueryIntent :=
  { intent_type := .market_data
    tickers := [("VALE3").toList]
    requires_rag := false
    requires_market_data := true
    requires_news := false
    confidence := 1 }

/-- C3 witness: the amended routing applied to the scenario intent with a
first report that completes. -/
theorem C3_conditional_routing_witness :
    Stage.rag ∉ workflowTrace 9 (some c3ScenIntent) (fun _ => .complete) ∧
    workflowTrace 4 (some c3ScenIntent) (fun _ => .complete) =
      [.router, .collector, .analyst, .reporter] :=
  ⟨((C3_conditional_routing c3ScenIntent (fun _ => .complete)).2.2 rfl rfl).1 9,
   ((C3_conditional_routing c3ScenIntent (fun _ => .complete)).2.2 rfl rfl).2 rfl 0⟩

/-! ### `src/rag/chunker.py` — DocumentChunker (C5, C6)

The regular expressions of the source are implemented as equivalent
character-level scanners.  `uuid4()` is modelled as an explicit id supply
`uuid : Nat → Str` indexed by creation order. -/

/-- Boolean Python-`\s` test (ASCII subset). -/
def pyWsB (c : Char) : Bool := pyWs c

/-- `text.replace("\r\n", "\n").replace("\r", "\n")`. -/
def replaceCR : Str → Str
  | [] => []
  | '\r' :: '\n' :: r2 => '\n' :: replaceCR r2
  | '\r' :: rest => '\n' :: replaceCR rest
  | c :: rest => c :: replaceCR rest

/-- `re.sub(r"[ \t]+", " ", ...)` as a scanner; `inRun` records whether
the previous character belonged to a space/tab run. -/
def collapseSpacesGo : Bool → Str → Str
  | _, [] => []
  | inRun, c :: rest =>
    if c = ' ' || c = '\t' then
      (if inRun then [] else [' ']) ++ collapseSpacesGo true rest
    else c :: collapseSpacesGo false rest

def collapseSpaces (s : Str) : Str := collapseSpacesGo false s

/-- `re.sub(r"\n{3,}", "\n\n", ...)`: keep at most two newlines of every
newline run (`run` counts the consecutive newlines seen so far). -/
def squeezeNlGo : Nat → Str → Str
  | _, [] => []
  | run, c :: rest =>
    if c = '\n' then (if run < 2 then ['\n'] else []) ++ squeezeNlGo (run + 1) rest
    else c :: squeezeNlGo 0 rest

/-- `DocumentChunker._normalize_text`. -/
def normalizeText (s : Str) : Str :=
  pyStrip (squeezeNlGo 0 (collapseSpaces (replaceCR s)))

/-- Case-insensitive literal match (`re.IGNORECASE`); the keyword is
given lower-case. -/
def matchCI : Str → Str → Option Str
  | [], s => some s
  | _ :: _, [] => none
  | k :: ks, c :: cs => if pyLowerChar c = k then matchCI ks cs else none

/-- After a keyword: `\s*(\d+)` — returns the captured page number. -/
def pageDigits (rest : Str) : Option (Nat × Str) :=
  let r2 := rest.dropWhile pyWsB
  match parseDigits r2 with
  | some (v, _, r) => some (v, r)
  | none => none

/-- Third alternative `Pág\.?` (greedy: with the dot first). -/
def matchPageAlt3 (s : Str) : Option (Nat × Str) :=
  match matchCI ("pág").toList s with
  | some rest =>
    match rest with
    | '.' :: r2 =>
      match pageDigits r2 with
      | some r => some r
      | none => pageDigits rest
    | _ => pageDigits rest
  | none => none

/-- Second alternative `Page`, then the `Pág\.?` fallback. -/
def matchPageAlt2 (s : Str) : Option (Nat × Str) :=
  match matchCI ("page").toList s with
  | some rest =>
    match pageDigits rest with
    | some r => some r
    | none => matchPageAlt3 s
  | none => matchPageAlt3 s

/-- `(?:Página|Page|Pág\.?)\s*(\d+)` at an anchor position, with the
regex engine's alternative order and the optional-dot backtracking. -/
def matchPageMarker (s : Str) : Option (Nat × Str) :=
  match matchCI ("página").toList s with
  | some rest =>
    match pageDigits rest with
    | some r => some r
    | none => matchPageAlt2 s
  | none => matchPageAlt2 s

/-- `page_pattern.split(text)` scan after the first segment has started:
a match needs a literal `\n` anchor (the `^` alternative applies only at
the string start, handled in `pageSplit`); the anchor newline belongs to
the match.  Returns the current segment and the (page, segment) pairs
after it. -/
def pageSplitGo (fuel : Nat) (s : Str) : Str × List (Nat × Str) :=
  match fuel, s with
  | 0, s => (s, [])
  | _ + 1, [] => ([], [])
  | fuel + 1, c :: rest =>
    if c = '\n' then
      match matchPageMarker rest with
      | some (n, r) =>
        let (seg, more) := pageSplitGo fuel r
        ([], (n, seg) :: more)
      | none =>
        let (seg, more) := pageSplitGo fuel rest
        (c :: seg, more)
    else
      let (seg, more) := pageSplitGo fuel rest
      (c :: seg, more)

/-- `page_pattern.split(text)`: leading segment plus the page-numbered
segments (the Python list `[seg0, n1, seg1, n2, seg2, ...]`). -/
def pageSplit (s : Str) : Str × List (Nat × Str) :=
  match matchPageMarker s with
  | some (n, r) =>
    let (seg, more) := pageSplitGo (s.length + 1) r
    ([], (n, seg) :: more)
  | none => pageSplitGo (s.length + 1) s

/-- `PARAGRAPH_SPLIT = re.compile(r"\n\s*\n")` split: a match starts at a
newline whose following whitespace run contains another newline and ends
at the last newline of that run. -/
def paraSplitGo (fuel : Nat) (s : Str) : List Str :=
  match fuel, s with
  | 0, s => [s]
  | _ + 1, [] => [[]]
  | fuel + 1, c :: rest =>
    if c = '\n' then
      let run := rest.takeWhile pyWsB
      match run.reverse.findIdx? (· = '\n') with
      | some j =>
        [] :: paraSplitGo fuel (rest.drop (run.length - j))
      | none =>
        match paraSplitGo fuel rest with
        | seg :: more => (c :: seg) :: more
        | [] => [[c]]
    else
      match paraSplitGo fuel rest with
      | seg :: more => (c :: seg) :: more
      | [] => [[c]]

def paraSplit (s : Str) : List Str := paraSplitGo (s.length + 1) s

/-- One table unit `\|[^\n]+\|[\n\r]+` after its opening pipe: walk the
non-newline middle (which may itself contain pipes) looking for a pipe
followed by a newline, with at least one middle character. -/
def tableAfterPipe : Str → Nat → Bool
  | [], _ => false
  | c :: rest, seen =>
    if c = '\n' then false
    else if c = '|' && decide (1 ≤ seen) &&
        (match rest with
         | d :: _ => d = '\n' || d = '\r'
         | [] => false) then true
    else tableAfterPipe rest (seen + 1)

/-- `TABLE_PATTERN.search`: some position starts a table unit. -/
def hasTablePattern : Str → Bool
  | [] => false
  | '|' :: rest => tableAfterPipe rest 0 || hasTablePattern rest
  | _ :: rest => hasTablePattern rest

/-- The financial vocabulary of `_detect_section_type`. -/
def financialKeywords : List Str :=
  [("ativo").toList, ("passivo").toList, ("patrimônio").toList,
   ("receita").toList, ("despesa").toList, ("lucro").toList,
   ("prejuízo").toList, ("ebitda").toList, ("dívida").toList,
   ("caixa").toList, ("fluxo").toList]

/-- Cased-and-lowercase test over the modelled alphabet. -/
def isLowerCased (c : Char) : Bool :=
  ('a' ≤ c && c ≤ 'z') || pyUpperChar c ≠ c

/-- Cased-and-uppercase test over the modelled alphabet. -/
def isUpperCased (c : Char) : Bool :=
  ('A' ≤ c && c ≤ 'Z') || pyLowerChar c ≠ c

/-- Python `str.isupper()`: no lowercase cased character and at least one
cased character. -/
def pyIsUpper (s : Str) : Bool :=
  s.all (fun c => !isLowerCased c) && s.any (fun c => isLowerCased c || isUpperCased c)

/-- `DocumentChunker._detect_section_type`. -/
def detectSectionType (text : Str) : Str :=
  if hasTablePattern text then ("table").toList
  else if financialKeywords.any (fun kw => strContains (pyLower text) kw) then
    ("financial").toList
  else if pyIsUpper (pyStrip text) && decide ((pyStrip text).length < 100) then
    ("header").toList
  else ("text").toList

/-- One logical section of a document. -/
structure Section where
  content : Str
  page_number : Option Nat
  stype : Str

/-- The page-branch loop of `_split_into_sections`: each segment is
tagged with the page number captured just after it (`current_page` is
updated before the segment is appended); the final segment keeps the last
number. -/
def pagedGo : Nat → Str → List (Nat × Str) → List Section
  | cur, content, [] =>
    if pyStrip content = [] then []
    else [{ content := pyStrip content, page_number := some cur,
            stype := detectSectionType content }]
  | _, content, (n, seg) :: more =>
    (if pyStrip content = [] then []
     else [{ content := pyStrip content, page_number := some n,
             stype := detectSectionType content }]) ++ pagedGo n seg more

/-- `DocumentChunker._split_into_sections`. -/
def splitIntoSections (text : Str) : List Section :=
  let (seg0, more) := pageSplit text
  if more ≠ [] then pagedGo 1 seg0 more
  else
    (paraSplit text).foldr (fun para acc =>
      (if pyStrip para = [] then []
       else [{ content := pyStrip para, page_number := none,
               stype := detectSectionType para }]) ++ acc) []

/-- `SENTENCE_ENDINGS = re.compile(r"(?<=[.!?])\s+")` split: break at a
whitespace run preceded by `.`, `!` or `?`, consuming the run. -/
def sentSplitGo (fuel : Nat) (acc : Str) (s : Str) : List Str :=
  match fuel with
  | 0 => [acc ++ s]
  | fuel + 1 =>
    match s with
    | [] => [acc]
    | c :: rest =>
      if pyWsB c && (match acc.getLast? with
          | some p => p = '.' || p = '!' || p = '?'
          | none => false) then
        acc :: sentSplitGo fuel [] (rest.dropWhile pyWsB)
      else sentSplitGo fuel (acc ++ [c]) rest

def sentSplit (s : Str) : List Str := sentSplitGo (s.length + 1) [] s

/-- `" ".join`. -/
def joinSp (xs : List Str) : Str := List.intercalate ([' ']) xs

/-- The backward overlap walk over the just-closed chunk's sentences
(`reversed(current_chunk)` with `insert(0, s)`). -/
def overlapWalkGo (overlap : Nat) : List Str → Nat → List Str → List Str × Nat
  | [], len, acc => (acc, len)
  | s :: rest, len, acc =>
    if len + s.length > overlap then (acc, len)
    else overlapWalkGo overlap rest (len + s.length) (s :: acc)

def overlapWalk (cur : List Str) (overlap : Nat) : List Str × Nat :=
  overlapWalkGo overlap cur.reverse 0 []

/-- The greedy sentence-packing loop of `_chunk_section`. -/
def packGo (chunkSize overlap : Nat) : List Str → List Str → Nat → List Str
  | [], cur, _ => if cur = [] then [] else [joinSp cur]
  | sent :: rest, cur, len =>
    let s := pyStrip sent
    if s = [] then packGo chunkSize overlap rest cur len
    else
      let sl := s.length
      if len + sl > chunkSize && !cur.isEmpty then
        let chunkStr := joinSp cur
        let (newCur, newLen) :=
          if chunkStr.length > overlap then overlapWalk cur overlap
          else ([], 0)
        chunkStr :: packGo chunkSize overlap rest (newCur ++ [s]) (newLen + sl)
      else packGo chunkSize overlap rest (cur ++ [s]) (len + sl)

/-- `DocumentChunker._chunk_section` (its `page_number` parameter is
unused in the source). -/
def chunkSection (chunkSize overlap : Nat) (text : Str) : List Str :=
  if text.length ≤ chunkSize then [text]
  else packGo chunkSize overlap (sentSplit text) [] 0

/-- `DocumentChunk` (pydantic).  `metadata` is the string-keyed map; the
caller-supplied document metadata is appended after the chunker's own
keys, which matches dict lookup for every key the code reads. -/
structure DocumentChunk where
  chunk_id : Str
  document_id : Str
  content : Str
  page_number : Option Nat := none
  chunk_index : Nat
  metadata : List (Str × Json) := []
  embedding : Option (List ℚ) := none

/-- `NUMBER_PATTERN` alternative `R\$\s*[\d.,]+` at one position. -/
def numAlt1 : Str → Bool
  | 'R' :: '$' :: rest =>
    match rest.dropWhile pyWsB with
    | c :: _ => c.isDigit || c = '.' || c = ','
    | [] => false
  | _ => false

/-- `NUMBER_PATTERN` alternative `[\d.,]+\s*%` at one position. -/
def numAlt2 (s : Str) : Bool :=
  let run := s.takeWhile (fun c => c.isDigit || c = '.' || c = ',')
  if run = [] then false
  else
    match (s.drop run.length).dropWhile pyWsB with
    | '%' :: _ => true
    | _ => false

/-- `bool(NUMBER_PATTERN.search(text))`: the third alternative
`\d{1,3}(?:\.\d{3})*(?:,\d+)?` succeeds at any digit. -/
def hasNumbers : Str → Bool
  | [] => false
  | c :: rest => numAlt1 (c :: rest) || numAlt2 (c :: rest) || c.isDigit ||
      hasNumbers rest

/-- The per-chunk metadata the chunker attaches (its own keys first, so
first-match lookup observes the dict-update override). -/
def chunkMeta (meta : List (Str × Json)) (stype : Str) (chunkText : Str) :
    List (Str × Json) :=
  [(("section_type").toList, Json.str stype),
   (("has_numbers").toList, Json.bool (hasNumbers chunkText)),
   (("char_count").toList, Json.num chunkText.length)] ++ meta

/-- Per-section chunk emission with the minimum 50-character floor and
the running `chunk_index` / uuid counter. -/
def emitChunks (uuid : Nat → Str) (documentId : Str) (meta : List (Str × Json))
    (sec : Section) (texts : List Str) (startIdx : Nat) : List DocumentChunk × Nat :=
  texts.foldl (fun (acc : List DocumentChunk × Nat) chunkText =>
    if (pyStrip chunkText).length < 50 then acc
    else
      (acc.1 ++
        [{ chunk_id := uuid acc.2
           document_id := documentId
           content := chunkText
           page_number := sec.page_number
           chunk_index := acc.2
           metadata := chunkMeta meta sec.stype chunkText }], acc.2 + 1))
    ([], startIdx)

/-- `DocumentChunker.chunk_document`. -/
def chunkDocument (chunkSize overlap : Nat) (uuid : Nat → Str)
    (documentId : Str) (text : Str) (meta : List (Str × Json)) :
    List DocumentChunk :=
  if text = [] || pyStrip text = [] then []
  else
    let t := normalizeText text
    let sections := splitIntoSections t
    (sections.foldl (fun (acc : List DocumentChunk × Nat) sec =>
      let (cs, idx) := emitChunks uuid documentId meta sec
        (chunkSection chunkSize overlap sec.content) acc.2
      (acc.1 ++ cs, idx)) ([], 0)).1

/-- One externally-extracted table (`markdown` / `data` / `page_number`
keys of the Python dict; `data` cells already rendered by `str`). -/
structure TableInput where
  markdown : Option Str := none
  rows : Option (List (List Str)) := none
  page_number : Option Nat := none

/-- `DocumentChunker._format_table`. -/
def formatTable (t : TableInput) : Str :=
  match t.markdown with
  | some md => md
  | none =>
    match t.rows with
    | some rows =>
      if rows = [] then []
      else List.intercalate (['\n']) (rows.map (fun row =>
        List.intercalate ((" | ").toList) row))
    | none => []

/-- `DocumentChunker.chunk_with_tables`: append one chunk per non-empty
table, computing each `chunk_index` as `len(chunks) + i` over the list
that already includes the previously appended table chunks. -/
def chunkWithTablesGo (uuid : Nat → Str) (documentId : Str)
    (meta : List (Str × Json)) : List TableInput → Nat → List DocumentChunk →
    List DocumentChunk
  | [], _, acc => acc
  | t :: rest, i, acc =>
    let content := formatTable t
    if content = [] then chunkWithTablesGo uuid documentId meta rest (i + 1) acc
    else
      chunkWithTablesGo uuid documentId meta rest (i + 1)
        (acc ++
          [{ chunk_id := uuid acc.length
             document_id := documentId
             content := content
             page_number := t.page_number
             chunk_index := acc.length + i
             metadata :=
               [(("section_type").toList, Json.str (("table").toList)),
                (("table_index").toList, Json.num i),
                (("has_numbers").toList, Json.bool true)] ++ meta }])

def chunkWithTables (chunkSize overlap : Nat) (uuid : Nat → Str)
    (documentId : Str) (text : Str) (tables : List TableInput)
    (meta : List (Str × Json)) : List DocumentChunk :=
  chunkWithTablesGo uuid documentId meta tables 0
    (chunkDocument chunkSize overlap uuid documentId text meta)


def noDbl : Str → Bool
  | [] => true
  | [_] => true
  | a :: b :: r => !(a = ' ' && b = ' ') && noDbl (b :: r)

def plainChar (c : Char) : Bool :=
  !(c = '\r' || c = '\t' || c = '\n' || c = '\x0b' || c = '\x0c')

def plainText (t : Str) : Bool :=
  t.all plainChar && noDbl t &&
  (match t.head? with
   | some c => !(c = ' ') && !(pyLowerChar c = 'p')
   | none => false) &&
  (match t.getLast? with
   | some c => !(c = ' ')
   | none => false)

theorem replaceCR_cons_ne {c : Char} {rest : Str} (hc : c ≠ '\r') :
    replaceCR (c :: rest) = c :: replaceCR rest := by
  rw [replaceCR.eq_def]
  split
  · next h => cases h
  · next h => injection h with h1 _; exact absurd h1 hc
  · next h => injection h with h1 _; exact absurd h1 hc
  · next x xs h => injection h with h1 h2; rw [h1, h2]

theorem replaceCR_id {t : Str} (h : ∀ c ∈ t, c ≠ '\r') : replaceCR t = t := by
  induction t with
  | nil => rfl
  | cons c rest ih =>
    rw [replaceCR_cons_ne (h c (List.mem_cons_self _ _)),
      ih (fun d hd => h d (List.mem_cons_of_mem _ hd))]

theorem noDbl_cons {a b : Char} {r : Str} (h : noDbl (a :: b :: r) = true) :
    !(a = ' ' && b = ' ') = true ∧ noDbl (b :: r) = true := by
  simpa [noDbl, Bool.and_eq_true] using h

theorem csGo_id : ∀ (t : Str) (prev : Bool),
    t.all (fun c => !(c = '\t')) = true → noDbl t = true →
    (prev = true → t.head? ≠ some ' ') → collapseSpacesGo prev t = t := by
  intro t
  induction t with
  | nil => intro prev _ _ _; rfl
  | cons c rest ih =>
    intro prev hall hdbl hprev
    have hct : (c = '\t') = False := by
      simpa using (List.all_eq_true.mp hall c (List.mem_cons_self _ _))
    have hallr : rest.all (fun c => !(c = '\t')) = true :=
      List.all_eq_true.mpr fun d hd =>
        List.all_eq_true.mp hall d (List.mem_cons_of_mem _ hd)
    have hdr : noDbl rest = true := by
      cases rest with
      | nil => rfl
      | cons b r => exact (noDbl_cons hdbl).2
    by_cases hcs : c = ' '
    · have hpf : prev = false := by
        rcases prev with _ | _
        · rfl
        · exact absurd (by simp [hcs]) (hprev rfl)
      subst hpf hcs
      have hrh : rest.head? ≠ some ' ' := by
        cases rest with
        | nil => simp
        | cons b r =>
          have := (noDbl_cons hdbl).1
          simp only [List.head?_cons, ne_eq, Option.some.injEq]
          intro hb
          simp [hb] at this
      have hrec := ih true hallr hdr (fun _ => hrh)
      simp [collapseSpacesGo, hrec]
    · have hrec := ih false hallr hdr (by simp)
      simp only [collapseSpacesGo]
      rw [if_neg (by simp [hcs, hct]), hrec]

theorem squeezeNlGo_id : ∀ (t : Str) (run : Nat),
    (∀ c ∈ t, c ≠ '\n') → squeezeNlGo run t = t := by
  intro t
  induction t with
  | nil => intro run _; rfl
  | cons c rest ih =>
    intro run h
    have hc : (c = '\n') = False := by simp [h c (List.mem_cons_self _ _)]
    simp only [squeezeNlGo]
    rw [if_neg (by simp [hc])]
    rw [ih 0 (fun d hd => h d (List.mem_cons_of_mem _ hd))]

theorem dropWhile_id {p : Char → Bool} {l : Str}
    (h : ∀ c, l.head? = some c → p c = false) : l.dropWhile p = l := by
  cases l with
  | nil => rfl
  | cons c rest => simp [List.dropWhile, h c rfl]

theorem pyStrip_id {t : Str}
    (hh : ∀ c, t.head? = some c → pyWs c = false)
    (hl : ∀ c, t.getLast? = some c → pyWs c = false) : pyStrip t = t := by
  have h1 : t.dropWhile (pyWs ·) = t := dropWhile_id (by simpa using hh)
  have h2 : t.reverse.dropWhile (pyWs ·) = t.reverse := dropWhile_id (by
    intro c hc
    rw [List.head?_reverse] at hc
    simpa using hl c hc)
  unfold pyStrip
  rw [h1, h2, List.reverse_reverse]

theorem matchPageMarker_notp {s : Str}
    (h : ∀ c, s.head? = some c → pyLowerChar c ≠ 'p') : matchPageMarker s = none := by
  cases s with
  | nil => rfl
  | cons c rest =>
    have hc : (pyLowerChar c = 'p') = False := by simp [h c rfl]
    simp [matchPageMarker, matchPageAlt2, matchPageAlt3, matchCI, hc]

theorem pageSplitGo_nonl : ∀ (fuel : Nat) (s : Str),
    (∀ c ∈ s, c ≠ '\n') → pageSplitGo fuel s = (s, []) := by
  intro fuel
  induction fuel with
  | zero => intro s _; rfl
  | succ f ih =>
    intro s h
    cases s with
    | nil => rfl
    | cons c rest =>
      have hc : c ≠ '\n' := h c (List.mem_cons_self _ _)
      have hr := ih rest (fun d hd => h d (List.mem_cons_of_mem _ hd))
      simp only [pageSplitGo]
      rw [if_neg (by simpa using hc), hr]

theorem paraSplitGo_nonl : ∀ (fuel : Nat) (s : Str),
    (∀ c ∈ s, c ≠ '\n') → paraSplitGo fuel s = [s] := by
  intro fuel
  induction fuel with
  | zero => intro s _; rfl
  | succ f ih =>
    intro s h
    cases s with
    | nil => rfl
    | cons c rest =>
      have hc : c ≠ '\n' := h c (List.mem_cons_self _ _)
      have hr := ih rest (fun d hd => h d (List.mem_cons_of_mem _ hd))
      simp only [paraSplitGo]
      rw [if_neg (by simpa using hc), hr]

theorem C6_main (chunkSize overlap : Nat) (uuid : Nat → Str) (docId t : Str)
    (meta : List (Str × Json))
    (hplain : plainText t = true) (hmin : 50 ≤ t.length) (hmax : t.length ≤ chunkSize) :
    chunkDocument chunkSize overlap uuid docId t meta =
      [{ chunk_id := uuid 0, document_id := docId, content := t,
         page_number := none, chunk_index := 0,
         metadata := chunkMeta meta (detectSectionType t) t }] := by
  have hne : t ≠ [] := by
    intro h
    rw [h] at hmin
    simp at hmin
  simp only [plainText, Bool.and_eq_true] at hplain
  obtain ⟨⟨⟨hall, hdbl⟩, hhead⟩, hlast⟩ := hplain
  have hallm := List.all_eq_true.mp hall
  have hplainc : ∀ c ∈ t, ¬c = '\r' ∧ ¬c = '\t' ∧ ¬c = '\n' ∧ ¬c = '\x0b' ∧ ¬c = '\x0c' := by
    intro c hc
    have := hallm c hc
    simp only [plainChar] at this
    simpa [and_assoc] using this
  have hnoCR : ∀ c ∈ t, c ≠ '\r' := fun c hc => (hplainc c hc).1
  have hnoNl : ∀ c ∈ t, c ≠ '\n' := fun c hc => (hplainc c hc).2.2.1
  have htab : t.all (fun c => !(c = '\t')) = true :=
    List.all_eq_true.mpr fun c hc => by simp [(hplainc c hc).2.1]
  have hheadc : ∀ c, t.head? = some c → ¬c = ' ' ∧ ¬pyLowerChar c = 'p' := by
    intro c hc
    rw [hc] at hhead
    simpa using hhead
  have hlastc : ∀ c, t.getLast? = some c → ¬c = ' ' := by
    intro c hc
    rw [hc] at hlast
    simpa using hlast
  have hWs : ∀ c ∈ t, ¬c = ' ' → pyWs c = false := by
    intro c hc hsp
    obtain ⟨h1, h2, h3, h4, h5⟩ := hplainc c hc
    simp [pyWs, hsp, h1, h2, h3, h4, h5]
  have hheadWs : ∀ c, t.head? = some c → pyWs c = false := fun c hc =>
    hWs c (List.mem_of_mem_head? (by rw [hc]; rfl)) (hheadc c hc).1
  have hlastWs : ∀ c, t.getLast? = some c → pyWs c = false := fun c hc =>
    hWs c (List.mem_of_getLast?_eq_some hc) (hlastc c hc)
  have hstrip : pyStrip t = t := pyStrip_id hheadWs hlastWs
  have hnorm : normalizeText t = t := by
    unfold normalizeText collapseSpaces
    rw [replaceCR_id hnoCR, csGo_id t false htab hdbl (by simp), squeezeNlGo_id t 0 hnoNl,
      hstrip]
  have hmarker : matchPageMarker t = none :=
    matchPageMarker_notp (fun c hc => (hheadc c hc).2)
  have hsections : splitIntoSections t = [⟨t, none, detectSectionType t⟩] := by
    unfold splitIntoSections pageSplit paraSplit
    rw [hmarker, pageSplitGo_nonl _ t hnoNl, paraSplitGo_nonl _ t hnoNl]
    simp [hstrip, hne]
  have hsec : chunkSection chunkSize overlap t = [t] := by
    simp [chunkSection, hmax]
  unfold chunkDocument
  rw [if_neg (by simp [hne, hstrip])]
  simp only [hnorm, hsections, List.foldl_cons, List.foldl_nil, hsec, emitChunks, hstrip]
  rw [if_neg (by omega)]
  simp

/-- The spec's own scenario text (43 characters). -/
def c6ScenText : Str := ("Sentence one. Sentence two. Sentence three.").toList

/-- C6 counterexample: the scenario text is below the chunk-size
threshold, yet `chunk_document` returns no chunk at all — its 43
characters fall under the hard-coded 50-character minimum floor, so the
chunk is discarded instead of returned verbatim. -/
theorem C6_counterexample_scenario_dropped :
    c6ScenText.length < 512 ∧
    chunkDocument 512 50 (fun _ => []) ("doc").toList c6ScenText [] = [] :=
  ⟨by decide, by rfl⟩

/-- C6 amended: for every already-normalized single-paragraph text (no
newlines, tabs, carriage returns or double spaces, not starting or
ending with a space, not starting with a page-marker initial) whose
length is at least the 50-character minimum floor and at most the
chunk-size threshold, `chunk_document` returns exactly one chunk whose
content is the original text verbatim and whose chunk index is 0. -/
theorem C6_small_text_single_chunk (chunkSize overlap : Nat) (uuid : Nat → Str)
    (docId t : Str) (meta : List (Str × Json))
    (hplain : plainText t = true) (hmin : 50 ≤ t.length)
    (hmax : t.length ≤ chunkSize) :
    chunkDocument chunkSize overlap uuid docId t meta =
      [{ chunk_id := uuid 0, document_id := docId, content := t,
         page_number := none, chunk_index := 0,
         metadata := chunkMeta meta (detectSectionType t) t }] :=
  C6_main chunkSize overlap uuid docId t meta hplain hmin hmax

/-- A 68-character plain text for the C6 witness. -/
def c6Text : Str :=
  ("The quick brown fox jumps over the lazy dog near a riverbank today.").toList

/-- C6 witness: the amended statement at a concrete text. -/
theorem C6_small_text_single_chunk_witness :
    plainText c6Text = true ∧
    chunkDocument 512 50 (fun _ => []) ("doc").toList c6Text [] =
      [{ chunk_id := [], document_id := ("doc").toList, content := c6Text,
         page_number := none, chunk_index := 0,
         metadata := chunkMeta [] (detectSectionType c6Text) c6Text }] :=
  ⟨by decide,
   C6_small_text_single_chunk 512 50 (fun _ => []) (("doc").toList) c6Text []
     (by decide) (by decide) (by decide)⟩

/-- Two non-empty externally-extracted tables. -/
def c5Tables : List TableInput :=
  [{ markdown := some (("|a|b|").toList) },
   { markdown := some (("|c|d|").toList) }]

/-- C5: `chunk_with_tables` computes each table chunk's index as
`len(chunks) + i` over a list that already contains the previously
appended table chunks, double-counting them.  With an empty document body
and two tables the produced indices are `[0, 2]`, not the contiguous
range `[0, 1]` required by the claim (and by the data-model invariant the
spec states for chunk indices). -/
theorem C5_table_index_gap :
    (chunkWithTables 512 50 (fun _ => []) ("doc").toList [] c5Tables []).map
      (fun c => c.chunk_index) = [0, 2] ∧
    (chunkWithTables 512 50 (fun _ => []) ("doc").toList [] c5Tables []).map
      (fun c => c.chunk_index) ≠ List.range 2 := by
  refine ⟨rfl, ?_⟩
  intro h
  rw [show (chunkWithTables 512 50 (fun _ => []) ("doc").toList [] c5Tables []).map
      (fun c => c.chunk_index) = [0, 2] from rfl] at h
  exact absurd h (by decide)

/-! ### `src/rag/retriever.py` — RAGRetriever (C7, C8, C10)

The embedding service, vector store and Cohere reranker are explicit
function/outcome arguments.  `0.2` and the 4-characters-per-token
estimate are the source's fixed constants (floats as `ℚ`). -/

/-- Pydantic model equality for chunks (field-wise). -/
def chunkBeq (a b : DocumentChunk) : Bool :=
  a.chunk_id == b.chunk_id && a.document_id == b.document_id &&
  a.content == b.content && a.page_number == b.page_number &&
  a.chunk_index == b.chunk_index && jsonBeqF a.metadata b.metadata &&
  a.embedding == b.embedding

/-- Structured filters passed to the vector store. -/
abbrev Filters := List (Str × Json)

/-- The keys of `search_metadata` the retriever writes (`none` models an
absent key). -/
structure SearchMeta where
  filters : Option Filters := none
  reranked : Bool := false
  scores : Option (List ℚ) := none
  keyword_boosted : Option Bool := none
  keywords : Option (List Str) := none

/-- `RAGContext` (pydantic). -/
structure RAGContext where
  chunks : List DocumentChunk := []
  total_chunks_found : Nat := 0
  query_embedding : Option (List ℚ) := none
  search_metadata : SearchMeta := {}

/-- Python `top_k or self._top_k` (0 is falsy). -/
def pyOrNat (arg : Option Nat) (dflt : Nat) : Nat :=
  match arg with
  | some k => if k = 0 then dflt else k
  | none => dflt

/-- `RAGRetriever._rerank_chunks`: on any failure inside the `try` —
including an out-of-range index from the reranker — fall back to the
vector-search order. -/
def rerankChunks (outcome : Except Unit (List (Nat × ℚ)))
    (chunks : List DocumentChunk) (scores : List ℚ) :
    List DocumentChunk × List ℚ :=
  match outcome with
  | .error _ => (chunks, scores)
  | .ok results =>
    match results.mapM (fun r => (chunks.get? r.1).map (fun c => (c, r.2))) with
    | some pairs => (pairs.map Prod.fst, pairs.map Prod.snd)
    | none => (chunks, scores)

/-- `RAGRetriever.retrieve`.  `embed` models the embedding collaborator,
`search` the vector store, `cohereConfigured` whether a rerank client
exists and `rerankOutcome` the rerank call's result. -/
def retrieve (cfgTopK rerankTopK : Nat) (embed : Str → List ℚ)
    (search : List ℚ → Nat → Option Filters → List (DocumentChunk × ℚ))
    (cohereConfigured : Bool) (rerankOutcome : Except Unit (List (Nat × ℚ)))
    (query : Str) (filters : Option Filters) (topKArg : Option Nat)
    (rerank : Bool) : RAGContext :=
  let top_k := pyOrNat topKArg cfgTopK
  let query_embedding := embed query
  let results := search query_embedding (if rerank then top_k * 2 else top_k) filters
  if results.isEmpty then
    { chunks := []
      total_chunks_found := 0
      query_embedding := some query_embedding
      search_metadata := { filters := filters, reranked := false } }
  else
    let chunks := results.map Prod.fst
    let scores := results.map Prod.snd
    let (chunks2, scores2) :=
      if rerank && cohereConfigured && decide (chunks.length > 1) then
        let (c, s) := rerankChunks rerankOutcome chunks scores
        (c.take rerankTopK, s)
      else (chunks, scores)
    { chunks := chunks2
      total_chunks_found := results.length
      query_embedding := some query_embedding
      search_metadata :=
        { filters := filters
          reranked := rerank && cohereConfigured
          scores := some (scores2.take 10) } }

/-- Python `list.index` (first element equal under pydantic equality). -/
def pyIndex (l : List DocumentChunk) (c : DocumentChunk) : Nat :=
  l.findIdx (fun d => chunkBeq d c)

/-- Number of supplied keywords found case-insensitively in the chunk
content. -/
def keywordMatches (keywords : List Str) (c : DocumentChunk) : Nat :=
  (keywords.filter (fun kw => strContains (pyLower c.content) (pyLower kw))).length

/-- Dict assignment (`d[k] = v`): overwrite in place or append. -/
def dictUpQ (acc : List (Str × ℚ)) (k : Str) (v : ℚ) : List (Str × ℚ) :=
  if acc.any (fun p => p.1 = k) then
    acc.map (fun p => if p.1 = k then (p.1, v) else p)
  else acc ++ [(k, v)]

/-- One step of the boost-building loop. -/
def boostStep (keywords : List Str) (acc : List (Str × ℚ))
    (chunk : DocumentChunk) : List (Str × ℚ) :=
  let nMatch := keywordMatches keywords chunk
  if nMatch > 0 then
    dictUpQ acc chunk.chunk_id ((nMatch : ℚ) / keywords.length)
  else acc

/-- `RAGRetriever._calculate_keyword_boost`: a chunk gets an entry only
when at least one keyword matches. -/
def calculateKeywordBoost (chunks : List DocumentChunk) (keywords : List Str) :
    List (Str × ℚ) :=
  chunks.foldl (boostStep keywords) []

/-- `RAGRetriever.hybrid_search`: retrieval with re-ranking disabled,
then the keyword re-scoring loop.  The per-chunk score lookup indexes the
stored raw-score list (truncated to 10 entries by `retrieve`) at
`chunks.index(chunk)`; an out-of-range position raises `IndexError`,
modelled as `.error .indexErr`. -/
def hybridSearch (cfgTopK rerankTopK : Nat) (embed : Str → List ℚ)
    (search : List ℚ → Nat → Option Filters → List (DocumentChunk × ℚ))
    (cohereConfigured : Bool) (rerankOutcome : Except Unit (List (Nat × ℚ)))
    (query : Str) (keywords : List Str) (filters : Option Filters)
    (topKArg : Option Nat) : Except PyErr RAGContext :=
  let semantic := retrieve cfgTopK rerankTopK embed search cohereConfigured
    rerankOutcome query filters (some (pyOrNat topKArg cfgTopK)) false
  if keywords = [] then .ok semantic
  else
    let boost := calculateKeywordBoost semantic.chunks keywords
    let scoresL := match semantic.search_metadata.scores with
      | some s => s
      | none => [0]
    match semantic.chunks.mapM (fun chunk =>
        let b := match boost.lookup chunk.chunk_id with
          | some v => v
          | none => 0
        (scoresL.get? (pyIndex semantic.chunks chunk)).map
          (fun sc => (chunk, sc + b * (1/5)))) with
    | none => .error .indexErr
    | some boosted =>
      let sorted := boosted.mergeSort (fun a b => decide (b.2 ≤ a.2))
      .ok { chunks := sorted.map Prod.fst
            total_chunks_found := semantic.total_chunks_found
            query_embedding := semantic.query_embedding
            search_metadata :=
              { semantic.search_metadata with
                keyword_boosted := some true
                keywords := some keywords } }

/-- The keyword-match fraction: matched keywords over supplied
keywords. -/
def kwFrac (keywords : List Str) (c : DocumentChunk) : ℚ :=
  (keywordMatches keywords c : ℚ) / keywords.length

/-- The blended score `vectorScore + keywordBoost * 0.2` the re-scoring
loop assigns to a chunk (vector score read from the stored raw-score
list at the chunk's first position). -/
def hybridScore (results : List (DocumentChunk × ℚ)) (keywords : List Str)
    (c : DocumentChunk) : ℚ :=
  (((results.map Prod.snd).take 10).get? (pyIndex (results.map Prod.fst) c)).getD 0 +
    kwFrac keywords c * (1/5)

/-- Python `str()` of a decoded JSON value as it appears in rendered
chunk metadata.  Non-integer numbers and containers get stand-in
renderings (Python's float/`repr` formatting is not modelled); this only
affects character counts of metadata values, which no claim constrains. -/
def pyStr : Json → Str
  | .str s => s
  | .bool true => ("True").toList
  | .bool false => ("False").toList
  | .null => ("None").toList
  | .num q =>
    if q.den = 1 then
      (if q.num < 0 then ['-'] else []) ++ Nat.toDigits 10 q.num.natAbs
    else
      (if q.num < 0 then ['-'] else []) ++ Nat.toDigits 10 q.num.natAbs ++
        ['/'] ++ Nat.toDigits 10 q.den
  | .arr _ => ("<list>").toList
  | .obj _ => ("<dict>").toList

/-- The `meta_parts` list of `format_context`. -/
def fmtMetaParts (c : DocumentChunk) : List Str :=
  (match c.metadata.lookup (("company").toList) with
   | some v => [("Empresa: ").toList ++ pyStr v]
   | none => []) ++
  (match c.metadata.lookup (("document_type").toList) with
   | some v => [("Tipo: ").toList ++ pyStr v]
   | none => []) ++
  (match c.metadata.lookup (("reference_date").toList) with
   | some v => [("Data: ").toList ++ pyStr v]
   | none => [])

/-- One rendered chunk block (`chunk_text` in the source). -/
def renderChunk (i : Nat) (c : DocumentChunk) : Str :=
  let basic := ("[Fonte ").toList ++ Nat.toDigits 10 (i + 1) ++ ("]\n").toList ++
    c.content ++ ['\n']
  if c.metadata.isEmpty then basic
  else
    let parts := fmtMetaParts c
    if parts = [] then basic
    else
      ("[Fonte ").toList ++ Nat.toDigits 10 (i + 1) ++ (" - ").toList ++
        List.intercalate ((", ").toList) parts ++ ("]\n").toList ++
        c.content ++ ['\n']

/-- The budgeted accumulation loop of `format_context`: each block costs
`len(block) // 4` estimated tokens; the loop breaks before the first
block that would push the running estimate over the budget. -/
def fcGo (budget : Nat) : List Str → Nat → List Str
  | [], _ => []
  | tx :: rest, cur =>
    if cur + tx.length / 4 > budget then []
    else tx :: fcGo budget rest (cur + tx.length / 4)

/-- `RAGRetriever.format_context`. -/
def formatContext (ctx : RAGContext) (maxTokens : Nat) : Str :=
  if ctx.chunks.isEmpty then []
  else
    List.intercalate (("\n---\n").toList)
      (fcGo maxTokens (ctx.chunks.enum.map (fun p => renderChunk p.1 p.2)) 0)

open FinAgent

/-- C10: when the vector-similarity search returns zero candidates,
`retrieve` returns a `RAGContext` with an empty chunk list, a
total-candidates count of 0, the query embedding computed for the query,
and search metadata recording the filters and `reranked = False`
regardless of the `rerank` argument (the early return hard-codes it). -/
theorem C10_empty_search (cfgTopK rerankTopK : Nat) (embed : Str → List ℚ)
    (search : List ℚ → Nat → Option Filters → List (DocumentChunk × ℚ))
    (cohereConfigured : Bool) (rerankOutcome : Except Unit (List (Nat × ℚ)))
    (query : Str) (filters : Option Filters) (topKArg : Option Nat) (rerank : Bool)
    (hsearch : ∀ v k f, search v k f = []) :
    retrieve cfgTopK rerankTopK embed search cohereConfigured rerankOutcome
      query filters topKArg rerank =
      { chunks := []
        total_chunks_found := 0
        query_embedding := some (embed query)
        search_metadata := { filters := filters, reranked := false } } := by
  simp [retrieve, hsearch]

/-- Invariant of the budget loop: the collected blocks are a prefix of
the rendered blocks, the running per-block estimate stays within the
budget, and the loop stopped at the first over-budget block. -/
theorem fcGo_spec (budget : Nat) : ∀ (txs : List Str) (cur : Nat), cur ≤ budget →
    (∃ tail, txs = fcGo budget txs cur ++ tail) ∧
    cur + ((fcGo budget txs cur).map (fun tx => tx.length / 4)).sum ≤ budget ∧
    (∀ nxt tail2, txs.drop (fcGo budget txs cur).length = nxt :: tail2 →
      cur + ((fcGo budget txs cur).map (fun tx => tx.length / 4)).sum +
        nxt.length / 4 > budget) := by
  intro txs
  induction txs with
  | nil =>
    intro cur hcur
    refine ⟨⟨[], rfl⟩, by simpa using hcur, ?_⟩
    intro nxt tail2 h
    simp [fcGo] at h
  | cons tx rest ih =>
    intro cur hcur
    by_cases hover : cur + tx.length / 4 > budget
    · have hfc : fcGo budget (tx :: rest) cur = [] := by
        simp [fcGo, if_pos hover]
      refine ⟨⟨tx :: rest, by rw [hfc]; rfl⟩, by simpa [hfc] using hcur, ?_⟩
      intro nxt tail2 h
      rw [hfc] at h ⊢
      simp at h
      obtain ⟨h1, _⟩ := h
      subst h1
      simpa using hover
    · have hle : cur + tx.length / 4 ≤ budget := Nat.le_of_not_lt hover
      have hfc : fcGo budget (tx :: rest) cur =
          tx :: fcGo budget rest (cur + tx.length / 4) := by
        simp [fcGo, if_neg hover]
      obtain ⟨⟨tail, htail⟩, hsum, hstop⟩ := ih (cur + tx.length / 4) hle
      refine ⟨⟨tail, by rw [hfc]; simpa using htail⟩, ?_, ?_⟩
      · rw [hfc]
        simpa [Nat.add_assoc] using hsum
      · intro nxt tail2 h
        rw [hfc] at h ⊢
        simp only [List.length_cons, List.drop_succ_cons] at h
        have := hstop nxt tail2 h
        simp only [List.map_cons, List.sum_cons]
        omega

/-- C7 amended: `format_context` renders a prefix of the chunks in
ranking order, never splitting a block; it stops before the first block
whose estimated cost (`len(block) // 4`) would push the running sum of
per-block estimates over the budget, and that running sum never exceeds
the budget; an empty chunk list renders to the empty string.  (The total
output character count may still imply a larger cost: the `\n---\n`
separators are never counted and per-block floor rounding discards
remainders — see the counterexample.) -/
theorem C7_format_context (ctx : RAGContext) (maxTokens : Nat) :
    (ctx.chunks.isEmpty = true → formatContext ctx maxTokens = []) ∧
    (ctx.chunks.isEmpty = false →
      formatContext ctx maxTokens =
        List.intercalate (("\n---\n").toList)
          (fcGo maxTokens (ctx.chunks.enum.map (fun p => renderChunk p.1 p.2)) 0)) ∧
    (∃ tail, ctx.chunks.enum.map (fun p => renderChunk p.1 p.2) =
      fcGo maxTokens (ctx.chunks.enum.map (fun p => renderChunk p.1 p.2)) 0 ++ tail) ∧
    ((fcGo maxTokens (ctx.chunks.enum.map (fun p => renderChunk p.1 p.2)) 0).map
      (fun tx => tx.length / 4)).sum ≤ maxTokens ∧
    (∀ nxt tail2,
      (ctx.chunks.enum.map (fun p => renderChunk p.1 p.2)).drop
        (fcGo maxTokens (ctx.chunks.enum.map (fun p => renderChunk p.1 p.2)) 0).length =
          nxt :: tail2 →
      ((fcGo maxTokens (ctx.chunks.enum.map (fun p => renderChunk p.1 p.2)) 0).map
        (fun tx => tx.length / 4)).sum + nxt.length / 4 > maxTokens) := by
  obtain ⟨hpre, hsum, hstop⟩ :=
    fcGo_spec maxTokens (ctx.chunks.enum.map (fun p => renderChunk p.1 p.2)) 0
      (Nat.zero_le _)
  refine ⟨?_, ?_, hpre, by simpa using hsum, ?_⟩
  · intro h
    simp [formatContext, h]
  · intro h
    simp [formatContext, h]
  · intro nxt tail2 h
    have := hstop nxt tail2 h
    omega

mutual

theorem jsonBeq_refl : ∀ j : Json, jsonBeq j j = true
  | .null => rfl
  | .bool b => by simp [jsonBeq]
  | .num q => by simp [jsonBeq]
  | .str s => by simp [jsonBeq]
  | .arr xs => by simp only [jsonBeq]; exact jsonBeqL_refl xs
  | .obj fs => by simp only [jsonBeq]; exact jsonBeqF_refl fs

theorem jsonBeqL_refl : ∀ l : List Json, jsonBeqL l l = true
  | [] => rfl
  | a :: as => by
    simp only [jsonBeqL, Bool.and_eq_true]
    exact ⟨jsonBeq_refl a, jsonBeqL_refl as⟩

theorem jsonBeqF_refl : ∀ l : List (Str × Json), jsonBeqF l l = true
  | [] => rfl
  | (k, v) :: as => by
    simp only [jsonBeqF, Bool.and_eq_true]
    exact ⟨⟨by simp, jsonBeq_refl v⟩, jsonBeqF_refl as⟩

end

theorem chunkBeq_refl (c : DocumentChunk) : chunkBeq c c = true := by
  simp [chunkBeq, jsonBeqF_refl]

theorem chunkBeq_id {a b : DocumentChunk} (h : chunkBeq a b = true) :
    a.chunk_id = b.chunk_id := by
  simp only [chunkBeq, Bool.and_eq_true] at h
  have := h.1.1.1.1.1.1
  simpa using this

theorem pyIndex_of_nodup : ∀ (l : List DocumentChunk) (k : Nat) (c : DocumentChunk),
    (l.map (fun d => d.chunk_id)).Nodup → l.get? k = some c →
    pyIndex l c = k := by
  intro l
  induction l with
  | nil => intro k c _ h; simp at h
  | cons d rest ih =>
    intro k c hnd hget
    rcases k with _ | k
    · simp only [List.get?_cons_zero, Option.some.injEq] at hget
      subst hget
      simp [pyIndex, List.findIdx_cons, chunkBeq_refl]
    · simp only [List.get?_cons_succ] at hget
      have hmem : c ∈ rest := List.get?_mem hget
      have h' : (∀ x ∈ rest, ¬x.chunk_id = d.chunk_id) ∧
          (rest.map (fun d => d.chunk_id)).Nodup := by
        simpa [List.nodup_cons] using hnd
      have hdne : chunkBeq d c = false := by
        by_contra hdc
        have hdc2 : chunkBeq d c = true := by
          rcases h2 : chunkBeq d c with _ | _
          · exact absurd h2 hdc
          · rfl
        exact h'.1 c hmem ((chunkBeq_id hdc2).symm)
      have hih := ih k c h'.2 hget
      simp only [pyIndex, List.findIdx_cons, hdne, cond_false] at hih ⊢
      omega

theorem lookup_of_all_ne {acc : List (Str × ℚ)} {x : Str}
    (h : ∀ p ∈ acc, p.1 ≠ x) : acc.lookup x = none := by
  induction acc with
  | nil => rfl
  | cons p rest ih =>
    obtain ⟨pk, pv⟩ := p
    have hp : pk ≠ x := h (pk, pv) (List.mem_cons_self _ _)
    rw [List.lookup_cons]
    rw [show (x == pk) = false by rw [beq_eq_false_iff_ne]; exact fun hh => hp hh.symm]
    exact ih (fun q hq => h q (List.mem_cons_of_mem _ hq))

theorem lookup_map_update_ne {acc : List (Str × ℚ)} {k x : Str} {v : ℚ} (hx : x ≠ k) :
    (acc.map (fun p => if p.1 = k then (p.1, v) else p)).lookup x = acc.lookup x := by
  induction acc with
  | nil => rfl
  | cons p rest ih =>
    obtain ⟨pk, pv⟩ := p
    by_cases hpk : pk = k
    · have hxp : (x == pk) = false := by
        simp only [beq_eq_false_iff_ne, ne_eq]
        exact fun hh => hx (hh.trans hpk)
      simp only [List.map_cons, if_pos (show (pk, pv).1 = k from hpk)]
      rw [List.lookup_cons, List.lookup_cons, hxp]
      simpa using ih
    · simp only [List.map_cons, if_neg (show ¬(pk, pv).1 = k from hpk)]
      rw [List.lookup_cons, List.lookup_cons]
      by_cases hxp : (x == pk) = true
      · rw [hxp]
      · rw [show (x == pk) = false by simpa using hxp]
        simpa using ih

theorem lookup_append_self {acc : List (Str × ℚ)} {k : Str} {v : ℚ}
    (h : ∀ p ∈ acc, p.1 ≠ k) : (acc ++ [(k, v)]).lookup k = some v := by
  induction acc with
  | nil => simp [List.lookup_cons]
  | cons p rest ih =>
    obtain ⟨pk, pv⟩ := p
    rw [List.cons_append, List.lookup_cons]
    rw [show (k == pk) = false by
      rw [beq_eq_false_iff_ne]
      exact fun hh => h (pk, pv) (List.mem_cons_self _ _) hh.symm]
    exact ih (fun q hq => h q (List.mem_cons_of_mem _ hq))

theorem lookup_append_ne {acc : List (Str × ℚ)} {k x : Str} {v : ℚ} (hx : x ≠ k) :
    (acc ++ [(k, v)]).lookup x = acc.lookup x := by
  induction acc with
  | nil =>
    rw [List.nil_append, List.lookup_cons,
      show (x == k) = false by rw [beq_eq_false_iff_ne]; exact hx]
  | cons p rest ih =>
    obtain ⟨pk, pv⟩ := p
    rw [List.cons_append, List.lookup_cons, List.lookup_cons]
    by_cases hxp : (x == pk) = true
    · rw [hxp]
    · rw [show (x == pk) = false by simpa using hxp]
      exact ih

theorem dictUpQ_lookup_ne {acc : List (Str × ℚ)} {k x : Str} {v : ℚ} (hx : x ≠ k) :
    (dictUpQ acc k v).lookup x = acc.lookup x := by
  unfold dictUpQ
  split
  · exact lookup_map_update_ne hx
  · exact lookup_append_ne hx

theorem dictUpQ_lookup_self {acc : List (Str × ℚ)} {k : Str} {v : ℚ}
    (h : ∀ p ∈ acc, p.1 ≠ k) : (dictUpQ acc k v).lookup k = some v := by
  unfold dictUpQ
  rw [if_neg (by
    simp only [List.any_eq_true, decide_eq_true_eq, not_exists]
    intro p hp
    exact h p hp.1 hp.2)]
  exact lookup_append_self h

theorem boost_frozen (keywords : List Str) :
    ∀ (chunks : List DocumentChunk) (acc : List (Str × ℚ)) (x : Str),
    (∀ d ∈ chunks, d.chunk_id ≠ x) →
    (chunks.foldl (boostStep keywords) acc).lookup x = acc.lookup x := by
  intro chunks
  induction chunks with
  | nil => intro acc x _; rfl
  | cons d rest ih =>
    intro acc x h
    rw [List.foldl_cons]
    rw [ih _ x (fun e he => h e (List.mem_cons_of_mem _ he))]
    simp only [boostStep]
    split
    · exact dictUpQ_lookup_ne (fun hh => h d (List.mem_cons_self _ _) hh.symm)
    · rfl

theorem boost_lookup (keywords : List Str) :
    ∀ (chunks : List DocumentChunk) (acc : List (Str × ℚ)) (c : DocumentChunk),
    c ∈ chunks →
    (chunks.map (fun d => d.chunk_id)).Nodup →
    (∀ x ∈ chunks, ∀ p ∈ acc, p.1 ≠ x.chunk_id) →
    (chunks.foldl (boostStep keywords) acc).lookup c.chunk_id =
      (if keywordMatches keywords c > 0 then
        some ((keywordMatches keywords c : ℚ) / keywords.length) else none) := by
  intro chunks
  induction chunks with
  | nil => intro acc c hc; cases hc
  | cons d rest ih =>
    intro acc c hc hnd hdisj
    have h' : (∀ x ∈ rest, ¬x.chunk_id = d.chunk_id) ∧
        (rest.map (fun e => e.chunk_id)).Nodup := by
      simpa [List.nodup_cons] using hnd
    rw [List.foldl_cons]
    rcases List.mem_cons.mp hc with rfl | hcr
    · rw [boost_frozen keywords rest _ c.chunk_id
        (fun e he hh => h'.1 e he hh)]
      unfold boostStep
      split
      · next hpos =>
        rw [if_pos hpos]
        exact dictUpQ_lookup_self
          (fun p hp => hdisj c (List.mem_cons_self _ _) p hp)
      · next hpos =>
        rw [if_neg hpos]
        exact lookup_of_all_ne (fun p hp => hdisj c (List.mem_cons_self _ _) p hp)
    · refine ih _ c hcr h'.2 ?_
      intro x hx p hp
      simp only [boostStep] at hp
      by_cases hsplit : keywordMatches keywords d > 0
      case neg =>
        rw [if_neg hsplit] at hp
        exact hdisj x (List.mem_cons_of_mem _ hx) p hp
      case pos =>
        rw [if_pos hsplit] at hp
        unfold dictUpQ at hp
        by_cases hany : (acc.any fun p => p.1 = d.chunk_id) = true
        · rw [if_pos hany] at hp
          rcases List.mem_map.mp hp with ⟨q, hq, hqe⟩
          by_cases hqd : q.1 = d.chunk_id
          · rw [if_pos hqd] at hqe
            subst hqe
            exact fun hh => h'.1 x hx ((show x.chunk_id = q.1 by simpa using hh.symm).trans hqd)
          · rw [if_neg hqd] at hqe
            subst hqe
            exact hdisj x (List.mem_cons_of_mem _ hx) q hq
        · rw [if_neg hany] at hp
          rcases List.mem_append.mp hp with hacc | hnew
          · exact hdisj x (List.mem_cons_of_mem _ hx) p hacc
          · have : p = (d.chunk_id, (keywordMatches keywords d : ℚ) / keywords.length) := by
              simpa using hnew
            subst this
            exact fun hh => h'.1 x hx (by simpa using hh.symm)

theorem mapM_eq_map {α β : Type} {f : α → Option β} {g : α → β} :
    ∀ l : List α, (∀ c ∈ l, f c = some (g c)) → l.mapM f = some (l.map g) := by
  intro l
  induction l with
  | nil => intro _; rfl
  | cons a rest ih =>
    intro h
    rw [List.mapM_cons, h a (List.mem_cons_self _ _),
      ih (fun c hc => h c (List.mem_cons_of_mem _ hc))]
    rfl

/-- C8 amended: provided the vector search returns at most 10 candidates
(the stored raw-score list that `hybrid_search` indexes is truncated to
10 entries) with pairwise-distinct chunk ids, `hybrid_search` runs
retrieval with re-ranking disabled, and returns the retrieved chunks
re-sorted in descending order of `vectorScore + 0.2 × keywordRatio`,
where the ratio is the fraction of the supplied keywords found
case-insensitively in the chunk content. -/
theorem C8_hybrid_sorted (cfgTopK rerankTopK : Nat) (embed : Str → List ℚ)
    (search : List ℚ → Nat → Option Filters → List (DocumentChunk × ℚ))
    (cohereConfigured : Bool) (rerankOutcome : Except Unit (List (Nat × ℚ)))
    (query : Str) (keywords : List Str) (filters : Option Filters)
    (topKArg : Option Nat) (results : List (DocumentChunk × ℚ))
    (hres : search (embed query)
      (pyOrNat (some (pyOrNat topKArg cfgTopK)) cfgTopK) filters = results)
    (hkw : keywords ≠ [])
    (hlen : results.length ≤ 10)
    (hids : (results.map (fun r => r.1.chunk_id)).Nodup) :
    ∃ ctx, hybridSearch cfgTopK rerankTopK embed search cohereConfigured
        rerankOutcome query keywords filters topKArg = .ok ctx ∧
      ctx.chunks.Perm (results.map Prod.fst) ∧
      ctx.chunks.Pairwise (fun a b =>
        hybridScore results keywords b ≤ hybridScore results keywords a) := by
  have hsem0 : retrieve cfgTopK rerankTopK embed search cohereConfigured
      rerankOutcome query filters (some (pyOrNat topKArg cfgTopK)) false =
      (if results.isEmpty then
        { chunks := []
          total_chunks_found := 0
          query_embedding := some (embed query)
          search_metadata := { filters := filters, reranked := false } }
      else
        { chunks := results.map Prod.fst
          total_chunks_found := results.length
          query_embedding := some (embed query)
          search_metadata :=
            { filters := filters, reranked := false
              scores := some ((results.map Prod.snd).take 10) } }) := by
    simp only [retrieve, Bool.false_eq_true, if_false, Bool.false_and]
    rw [hres]
  by_cases hemp : results.isEmpty
  · have hresnil : results = [] := List.isEmpty_iff.mp hemp
    refine ⟨{ chunks := []
              total_chunks_found := 0
              query_embedding := some (embed query)
              search_metadata :=
                { filters := filters, reranked := false, scores := none
                  keyword_boosted := some true, keywords := some keywords } },
            ?_, ?_, ?_⟩
    · simp only [hybridSearch, hsem0, hemp, if_true]
      rw [if_neg hkw]
      simp only [List.mapM_nil, pure, List.mergeSort_nil, List.map_nil]
    · simp [hresnil]
    · simp
  · have hempf : results.isEmpty = false := by
      rcases h2 : results.isEmpty with _ | _
      · rfl
      · exact absurd h2 hemp
    have hlensc : (results.map Prod.snd).length ≤ 10 := by simpa using hlen
    have htake : (results.map Prod.snd).take 10 = results.map Prod.snd :=
      List.take_of_length_le hlensc
    have hidsc : ((results.map Prod.fst).map (fun d => d.chunk_id)).Nodup := by
      simpa [List.map_map, Function.comp] using hids
    have hpoint : ∀ c ∈ results.map Prod.fst,
        (fun chunk =>
          (((results.map Prod.snd).take 10).get?
              (pyIndex (results.map Prod.fst) chunk)).map
            (fun sc => (chunk,
              sc + (match (calculateKeywordBoost (results.map Prod.fst)
                      keywords).lookup chunk.chunk_id with
                    | some v => v
                    | none => 0) * (1/5)))) c =
          some (c, hybridScore results keywords c) := by
      intro c hc
      obtain ⟨k, hk⟩ := List.get?_of_mem hc
      have hpy : pyIndex (results.map Prod.fst) c = k :=
        pyIndex_of_nodup (results.map Prod.fst) k c hidsc hk
      have hklt : k < (results.map Prod.snd).length := by
        have := List.get?_eq_some.mp hk
        simpa using this.1
      have hget : ((results.map Prod.snd).take 10).get? k =
          some ((results.map Prod.snd).get ⟨k, hklt⟩) := by
        rw [htake]
        exact List.get?_eq_get hklt
      have hboost : (calculateKeywordBoost (results.map Prod.fst)
          keywords).lookup c.chunk_id =
          (if keywordMatches keywords c > 0 then
            some ((keywordMatches keywords c : ℚ) / keywords.length) else none) :=
        boost_lookup keywords (results.map Prod.fst) [] c hc hidsc
          (fun x _ p hp => absurd hp (List.not_mem_nil p))
      simp only [hpy, hget, Option.map_some']
      rw [hboost]
      unfold hybridScore kwFrac
      rw [hpy, hget]
      by_cases hpos : keywordMatches keywords c > 0
      · rw [if_pos hpos]
        simp
      · rw [if_neg hpos]
        have hz : keywordMatches keywords c = 0 := by omega
        simp [hz]
    have hmapM := mapM_eq_map (results.map Prod.fst) hpoint
    have htrans : ∀ a b c : DocumentChunk × ℚ,
        (fun a b => decide (b.2 ≤ a.2)) a b → (fun a b => decide (b.2 ≤ a.2)) b c →
        (fun a b => decide (b.2 ≤ a.2)) a c := by
      intro a b c hab hbc
      simp only [decide_eq_true_eq] at hab hbc ⊢
      exact le_trans hbc hab
    have htotal : ∀ a b : DocumentChunk × ℚ,
        (fun a b => decide (b.2 ≤ a.2)) a b || (fun a b => decide (b.2 ≤ a.2)) b a := by
      intro a b
      simp only [Bool.or_eq_true, decide_eq_true_eq]
      exact le_total b.2 a.2
    have hsorted := List.sorted_mergeSort htrans htotal
      ((results.map Prod.fst).map (fun c => (c, hybridScore results keywords c)))
    have hperm := List.mergeSort_perm
      ((results.map Prod.fst).map (fun c => (c, hybridScore results keywords c)))
      (fun a b => decide (b.2 ≤ a.2))
    have hscore : ∀ p ∈ (results.map Prod.fst).map
        (fun c => (c, hybridScore results keywords c)),
        p.2 = hybridScore results keywords p.1 := by
      intro p hp
      rcases List.mem_map.mp hp with ⟨c, _, rfl⟩
      rfl
    refine ⟨{ chunks := (((results.map Prod.fst).map
            (fun c => (c, hybridScore results keywords c))).mergeSort
              (fun a b => decide (b.2 ≤ a.2))).map Prod.fst
              total_chunks_found := results.length
              query_embedding := some (embed query)
              search_metadata :=
                { filters := filters, reranked := false
                  scores := some ((results.map Prod.snd).take 10)
                  keyword_boosted := some true, keywords := some keywords } },
            ?_, ?_, ?_⟩
    · simp only [hybridSearch, hsem0, hempf, Bool.false_eq_true, if_false]
      rw [if_neg hkw]
      rw [hmapM]
    · have := hperm.map Prod.fst
      refine this.trans ?_
      have : ((results.map Prod.fst).map
          (fun c => (c, hybridScore results keywords c))).map Prod.fst =
          results.map Prod.fst := by
        simp [List.map_map]
      rw [this]
    · rw [List.pairwise_map]
      refine hsorted.imp_of_mem ?_
      intro a b ha hb hab
      have ha2 := hscore a (hperm.mem_iff.mp ha)
      have hb2 := hscore b (hperm.mem_iff.mp hb)
      simp only [decide_eq_true_eq] at hab
      rw [← ha2, ← hb2]
      exact hab

/-- Three empty chunks for the C7 counterexample/witness context. -/
def c7Chunks : List DocumentChunk :=
  [{ chunk_id := ("a").toList, document_id := ("d").toList, content := [],
     chunk_index := 0 },
   { chunk_id := ("b").toList, document_id := ("d").toList, content := [],
     chunk_index := 1 },
   { chunk_id := ("c").toList, document_id := ("d").toList, content := [],
     chunk_index := 2 }]

def c7Ctx : RAGContext := { chunks := c7Chunks, total_chunks_found := 3 }

/-- C7 counterexample: with a budget of 6 tokens the three rendered
blocks (11 characters, 2 estimated tokens each) all fit the running
estimate, but the output is 43 characters long — the five-character
separators are uncounted and the floor rounding discards remainders — so
the cost implied by the output character count is 10 > 6, refuting the
claim's character-count conjunct. -/
theorem C7_counterexample_implied_cost :
    (formatContext c7Ctx 6).length = 43 ∧ 43 / 4 > 6 := by
  constructor
  · rfl
  · decide

/-- C7 witness: the amended statement applied at a concrete context and
budget, with the inner implications discharged. -/
theorem C7_format_context_witness :
    formatContext c7Ctx 100 =
      List.intercalate (("\n---\n").toList)
        (fcGo 100 (c7Ctx.chunks.enum.map (fun p => renderChunk p.1 p.2)) 0) ∧
    ((fcGo 100 (c7Ctx.chunks.enum.map (fun p => renderChunk p.1 p.2)) 0).map
      (fun tx => tx.length / 4)).sum ≤ 100 :=
  ⟨(C7_format_context c7Ctx 100).2.1 (by decide),
   (C7_format_context c7Ctx 100).2.2.2.1⟩

/-- A stub search function that always finds nothing. -/
def c10Search : List ℚ → Nat → Option Filters → List (DocumentChunk × ℚ) :=
  fun _ _ _ => []

/-- C10 witness: the empty-retrieval shape at concrete arguments, with
`rerank = true`. -/
theorem C10_empty_search_witness :
    retrieve 10 5 (fun _ => [1, 2]) c10Search true (.error ()) ("q").toList
      none none true =
      { chunks := []
        total_chunks_found := 0
        query_embedding := some [1, 2]
        search_metadata := { filters := none, reranked := false } } :=
  C10_empty_search 10 5 (fun _ => [1, 2]) c10Search true (.error ())
    (("q").toList) none none true (fun _ _ _ => rfl)

/-- Chunk maker for the C8 counterexample. -/
def c8Chunk (n : Nat) : DocumentChunk :=
  { chunk_id := Nat.toDigits 10 n, document_id := ("d").toList, content := [],
    chunk_index := n }

/-- A vector store returning eleven scored chunks. -/
def c8Search11 : List ℚ → Nat → Option Filters → List (DocumentChunk × ℚ) :=
  fun _ _ _ => (List.range 11).map (fun n => (c8Chunk n, 1))

/-- C8 counterexample: with eleven vector-search candidates the
re-scoring loop indexes position 10 of the stored raw-score list, which
`retrieve` truncated to 10 entries — `hybrid_search` raises `IndexError`
instead of returning the re-sorted chunks, refuting the claim for
arbitrary result sets. -/
theorem C8_counterexample_eleven_candidates :
    hybridSearch 11 5 (fun _ => [1]) c8Search11 false (.error ()) ("q").toList
      [("x").toList] none (some 11) = .error .indexErr := by rfl

/-- Three scored chunks for the C8 witness. -/
def c8Results : List (DocumentChunk × ℚ) :=
  [({ chunk_id := ("a").toList, document_id := ("d").toList,
      content := ("alpha beta").toList, chunk_index := 0 }, 1/2),
   ({ chunk_id := ("b").toList, document_id := ("d").toList,
      content := ("beta").toList, chunk_index := 1 }, 3/4),
   ({ chunk_id := ("c").toList, document_id := ("d").toList,
      content := ("nothing").toList, chunk_index := 2 }, 7/10)]

def c8Search3 : List ℚ → Nat → Option Filters → List (DocumentChunk × ℚ) :=
  fun _ _ _ => c8Results

/-- C8 witness: the amended statement at three concrete candidates and
one keyword. -/
theorem C8_hybrid_sorted_witness :
    ∃ ctx, hybridSearch 10 5 (fun _ => [1]) c8Search3 false (.error ())
        ("q").toList [("beta").toList] none none = .ok ctx ∧
      ctx.chunks.Perm (c8Results.map Prod.fst) ∧
      ctx.chunks.Pairwise (fun a b =>
        hybridScore c8Results [("beta").toList] b ≤
        hybridScore c8Results [("beta").toList] a) :=
  C8_hybrid_sorted 10 5 (fun _ => [1]) c8Search3 false (.error ())
    (("q").toList) [("beta").toList] none none c8Results rfl (by decide)
    (by decide) (by decide)

end FinAgent
